import Mathlib

/-!
# The Jest configuration record of `gitlab-ci/config-examples/jest.config.js`

The source file is one object literal assigned to `module.exports`.  The record is
embedded field by field, in the order of the source.  A JavaScript object literal with
string keys is an ordered list of key/value pairs (insertion order), a JavaScript array is
a list, and the integer-valued number literals `80` and `10000` are natural numbers.

In the string literals below an opening brace is written `\x7b` and a closing brace
`\x7d`; the values are the ones of the source, e.g. the first `testMatch` entry is the
string `**/__tests__/**/*.{js,jsx,ts,tsx}`.
-/

namespace JestConfig

/-- One element of the `reporters` array: the source writes a reporter either as a bare
string (`'default'`) or as a two-element array `[name, options]` whose second element is
an object literal of string options. -/
inductive ReporterEntry where
  | bare (name : String)
  | pair (name : String) (options : List (String × String))
  deriving DecidableEq, Repr

/-- The name of a reporter entry. -/
def ReporterEntry.name : ReporterEntry → String
  | .bare n => n
  | .pair n _ => n

/-- Whether an element of `reporters` is a two-element array `[name, options]`. -/
def ReporterEntry.isPair : ReporterEntry → Bool
  | .bare _ => false
  | .pair _ _ => true

/-- The options object of a reporter entry, when the entry carries one. -/
def ReporterEntry.options? : ReporterEntry → Option (List (String × String))
  | .bare _ => none
  | .pair _ o => some o

/-- The object literal under `coverageThreshold`: its only key is `global`, whose value is
an object literal from metric names to numbers. -/
structure CoverageThreshold where
  global : List (String × Nat)
  deriving DecidableEq, Repr

/-- The shape of the object literal exported by `jest.config.js`. -/
structure Config where
  testEnvironment : String
  testMatch : List String
  testPathIgnorePatterns : List String
  collectCoverageFrom : List String
  coverageThreshold : CoverageThreshold
  reporters : List ReporterEntry
  transform : List (String × String)
  moduleNameMapper : List (String × String)
  setupFilesAfterEnv : List String
  testTimeout : Nat
  deriving DecidableEq, Repr

/-- The value of `module.exports` in `jest.config.js`. -/
def exports : Config where
  testEnvironment := "node"
  testMatch :=
    [ "**/__tests__/**/*.\x7bjs,jsx,ts,tsx\x7d",
      "**/*.\x7bspec,test\x7d.\x7bjs,jsx,ts,tsx\x7d" ]
  testPathIgnorePatterns :=
    [ "/node_modules/",
      "/dist/",
      "/build/" ]
  collectCoverageFrom :=
    [ "src/**/*.\x7bjs,jsx,ts,tsx\x7d",
      "!src/**/*.d.ts",
      "!src/**/*.stories.\x7bjs,jsx,ts,tsx\x7d",
      "!src/index.\x7bjs,ts\x7d" ]
  coverageThreshold :=
    { global :=
        [ ("branches", 80),
          ("functions", 80),
          ("lines", 80),
          ("statements", 80) ] }
  reporters :=
    [ .bare "default",
      .pair "jest-junit"
        [ ("outputDirectory", "."),
          ("outputName", "junit.xml"),
          ("classNameTemplate", "\x7bclassname\x7d"),
          ("titleTemplate", "\x7btitle\x7d") ] ]
  transform :=
    [ ("^.+\\.(ts|tsx)$", "ts-jest"),
      ("^.+\\.(js|jsx)$", "babel-jest") ]
  moduleNameMapper :=
    [ ("^@/(.*)$", "<rootDir>/src/$1"),
      ("\\.(css|less|scss|sass)$", "identity-obj-proxy"),
      ("\\.(jpg|jpeg|png|gif|svg)$", "<rootDir>/__mocks__/fileMock.js") ]
  setupFilesAfterEnv := ["<rootDir>/jest.setup.js"]
  testTimeout := 10000

/-- Property lookup `obj[key]` on an object literal given as its ordered key/value list. -/
def getProp {α : Type} (obj : List (String × α)) (key : String) : Option α :=
  (obj.find? (fun kv => kv.1 == key)).map Prod.snd

/-- The own keys of an object literal, in insertion order (`Object.keys`). -/
def keys {α : Type} (obj : List (String × α)) : List String :=
  obj.map Prod.fst

/-- The values the comment on `testEnvironment` in the source names for that field:
`'node'`, or `'jsdom'` for React. -/
def testEnvironments : List String := ["node", "jsdom"]


/-! ## Regular expressions

The keys of `transform` and `moduleNameMapper` are source texts of JavaScript regular
expressions; the test runner builds `new RegExp(key)` (no flags) from each of them, and its
glob matcher compiles every glob to such a source text too.  What follows is the pattern
syntax and the backtracking matcher of ECMAScript for the part of the language those
texts use: alternation, sequencing, the quantifiers `*`, `*?`, `+`, `?` and `{m,n}`,
capturing and non-capturing groups, lookaheads, the assertions `^` and `$` (without the
multiline flag), `.` (any character but a line terminator), classes that list their
characters, identity escapes and pattern characters.  Strings are sequences of
characters.
-/

/-- The ECMAScript production `LineTerminator`: LF, CR, LS and PS.  The atom `.` matches
every character but these. -/
def isLineTerminator (c : Char) : Bool :=
  c.toNat == 0x0A || c.toNat == 0x0D || c.toNat == 0x2028 || c.toNat == 0x2029

/-- The ECMAScript production `SyntaxCharacter`: the characters that are not pattern
characters. -/
def isSyntaxCharacter (c : Char) : Bool :=
  "^$\\.*+?()[]\x7b\x7d|".data.contains c

/-- Abstract syntax of the patterns.  `cls neg cs` is the class `[cs]`, or `[^cs]` when
`neg`; `star` is the greedy `*` and `lazyStar` is `*?`; `range lo hi r` is `r{lo,hi}`;
`group i r` is the capturing group number `i`, `ncgroup r` is `(?:r)`, and `look neg r` is
the lookahead `(?=r)`, or `(?!r)` when `neg`. -/
inductive Regex where
  | empty
  | bol
  | eol
  | dot
  | char (c : Char)
  | cls (neg : Bool) (cs : List Char)
  | seq (r s : Regex)
  | alt (r s : Regex)
  | star (r : Regex)
  | lazyStar (r : Regex)
  | plus (r : Regex)
  | range (lo hi : Nat) (r : Regex)
  | group (i : Nat) (r : Regex)
  | ncgroup (r : Regex)
  | look (neg : Bool) (r : Regex)
  deriving DecidableEq, Repr

/-- Whether a term is an atom, which a quantifier may follow: `.`, a character, a class
or a group; an assertion or an already quantified term is not. -/
def Regex.isAtom : Regex → Bool
  | .dot => true
  | .char _ => true
  | .cls _ _ => true
  | .group _ _ => true
  | .ncgroup _ => true
  | _ => false

/-- What an open parenthesis started: the whole pattern (no parenthesis), the capturing
group number `i`, a non-capturing group, or a lookahead. -/
inductive GroupKind where
  | whole
  | capture (i : Nat)
  | plain
  | look (neg : Bool)
  deriving DecidableEq, Repr

/-- An open disjunction while parsing: the alternatives already closed by `|` (latest
first), the terms of the current alternative (latest first), and what opened it. -/
structure Frame where
  alts : List Regex
  cur : List Regex
  kind : GroupKind
  deriving DecidableEq, Repr

/-- The sequence of a list of terms. -/
def mkSeq : List Regex → Regex
  | [] => .empty
  | [t] => t
  | t :: ts => .seq t (mkSeq ts)

/-- The disjunction of a list of alternatives; `a|b|c` is `a|(b|c)`. -/
def mkAlt : List Regex → Regex
  | [] => .empty
  | [a] => a
  | a :: as => .alt a (mkAlt as)

/-- The disjunction a frame stands for once its last alternative ends. -/
def Frame.close (f : Frame) : Regex :=
  mkAlt ((mkSeq f.cur.reverse :: f.alts).reverse)

/-- The term a frame stands for once its parenthesis is closed. -/
def Frame.node (f : Frame) : Regex :=
  match f.kind with
  | .whole => f.close
  | .capture i => .group i f.close
  | .plain => .ncgroup f.close
  | .look neg => .look neg f.close

/-- Where the parser is inside a token: between tokens, after a backslash, right after `(`,
after `(?`, right after `[`, inside a class, or inside the braces of a quantifier (the
digits of the lower bound and, after the comma, of the upper bound). -/
inductive Mode where
  | normal
  | escaped
  | opened
  | question
  | clsOpen
  | cls (neg : Bool) (cs : List Char)
  | bound (lo : List Char) (hi : Option (List Char))
  deriving DecidableEq, Repr

/-- State of the pattern parser: the enclosing open groups, the innermost open
disjunction, the number of capturing groups opened so far, and the mode. -/
structure ParseState where
  stack : List Frame
  top : Frame
  groups : Nat
  mode : Mode
  deriving DecidableEq, Repr

/-- Append a term to the current alternative. -/
def ParseState.push (st : ParseState) (t : Regex) : ParseState :=
  { st with top := { st.top with cur := t :: st.top.cur }, mode := .normal }

/-- Replace the last term of the current alternative by its quantified form; there has to
be a term and `q` has to accept it. -/
def ParseState.quantify (st : ParseState) (q : Regex → Option Regex) : Option ParseState :=
  match st.top.cur with
  | [] => none
  | t :: ts =>
    match q t with
    | some t1 => some { st with top := { st.top with cur := t1 :: ts }, mode := .normal }
    | none => none

/-- The number a run of decimal digits denotes (`parseInt(index, 10)`). -/
def digitsToNat (ds : List Char) : Nat :=
  ds.foldl (fun n d => 10 * n + (d.toNat - 48)) 0

/-- Read one character of a pattern between tokens. -/
def parseNormal (st : ParseState) (c : Char) : Option ParseState :=
  if c = '\\' then some { st with mode := .escaped }
  else if c = '(' then
    some { st with stack := st.top :: st.stack,
                   top := ⟨[], [], .capture (st.groups + 1)⟩,
                   groups := st.groups + 1,
                   mode := .opened }
  else if c = ')' then
    match st.stack with
    | [] => none
    | f :: fs =>
      some { st with stack := fs, top := { f with cur := st.top.node :: f.cur }, mode := .normal }
  else if c = '|' then
    some { st with top := { st.top with alts := mkSeq st.top.cur.reverse :: st.top.alts,
                                         cur := [] },
                   mode := .normal }
  else if c = '*' then st.quantify (fun t => if t.isAtom then some (.star t) else none)
  else if c = '+' then st.quantify (fun t => if t.isAtom then some (.plus t) else none)
  else if c = '?' then
    st.quantify (fun t =>
      match t with
      | .star r => some (.lazyStar r)
      | _ => if t.isAtom then some (.range 0 1 t) else none)
  else if c = '[' then some { st with mode := .clsOpen }
  else if c = '\x7b' then
    match st.top.cur with
    | [] => none
    | t :: _ => if t.isAtom then some { st with mode := .bound [] none } else none
  else if c = '^' then some (st.push .bol)
  else if c = '$' then some (st.push .eol)
  else if c = '.' then some (st.push .dot)
  else if isSyntaxCharacter c then none
  else some (st.push (.char c))

/-- Read one character of a pattern.  A pattern outside the supported part of the
language (ranges and escapes in classes, lazy quantifiers other than `*?`, escapes other
than identity escapes of syntax characters and of `/`, lookbehinds, named groups) is
refused. -/
def parseStep (st : ParseState) (c : Char) : Option ParseState :=
  match st.mode with
  | .normal => parseNormal st c
  | .escaped =>
    if isSyntaxCharacter c || c = '/' then some (st.push (.char c)) else none
  | .opened =>
    if c = '?' then some { st with groups := st.groups - 1, mode := .question }
    else parseNormal { st with mode := .normal } c
  | .question =>
    if c = ':' then some { st with top := { st.top with kind := .plain }, mode := .normal }
    else if c = '=' then
      some { st with top := { st.top with kind := .look false }, mode := .normal }
    else if c = '!' then
      some { st with top := { st.top with kind := .look true }, mode := .normal }
    else none
  | .clsOpen =>
    if c = '^' then some { st with mode := .cls true [] }
    else if c = ']' || c = '\\' || c = '-' || c = '[' then none
    else some { st with mode := .cls false [c] }
  | .cls neg cs =>
    if c = ']' then some (st.push (.cls neg cs))
    else if c = '\\' || c = '-' || c = '[' then none
    else some { st with mode := .cls neg (cs ++ [c]) }
  | .bound lo none =>
    if c.isDigit then some { st with mode := .bound (lo ++ [c]) none }
    else if c = ',' then (if lo = [] then none else some { st with mode := .bound lo (some []) })
    else if c = '\x7d' then
      if lo = [] then none
      else st.quantify (fun t => some (.range (digitsToNat lo) (digitsToNat lo) t))
    else none
  | .bound lo (some hi) =>
    if c.isDigit then some { st with mode := .bound lo (some (hi ++ [c])) }
    else if c = '\x7d' then
      if hi = [] || digitsToNat hi < digitsToNat lo then none
      else st.quantify (fun t => some (.range (digitsToNat lo) (digitsToNat hi) t))
    else none

/-- Parse the source text of a regular expression. -/
def parseRegex (pattern : String) : Option Regex :=
  match pattern.data.foldlM parseStep ⟨[], ⟨[], [], .whole⟩, 0, .normal⟩ with
  | some st =>
    if st.stack.isEmpty && st.mode = .normal then some st.top.close else none
  | none => none

/-- A state of the matcher: the input from the current end index on, and the captures
recorded so far (latest first). -/
structure MatchState where
  rest : List Char
  caps : List (Nat × List Char)
  deriving DecidableEq, Repr

/-- The numbers of the capturing groups inside a pattern. -/
def Regex.groups : Regex → List Nat
  | .seq r s => r.groups ++ s.groups
  | .alt r s => r.groups ++ s.groups
  | .star r => r.groups
  | .lazyStar r => r.groups
  | .plus r => r.groups
  | .range _ _ r => r.groups
  | .group i r => i :: r.groups
  | .ncgroup r => r.groups
  | .look _ r => r.groups
  | _ => []

/-- Reset the captures of the groups `gs`, as every iteration of a quantifier does for the
groups of its atom. -/
def clearCaps (gs : List Nat) (s : MatchState) : MatchState :=
  { s with caps := s.caps.filter (fun kv => !gs.contains kv.1) }

/-- Greedy repetition of `step`, zero or more times: every outcome of one more iteration
that moved the end index forward comes before the outcome of stopping here.  The first
argument bounds the number of iterations by the length of the remaining input, which
every iteration shortens. -/
def starRun (step : MatchState → List MatchState) : Nat → MatchState → List MatchState
  | 0, s => [s]
  | n + 1, s =>
    ((step s).filter (fun t => decide (t.rest.length < s.rest.length))).flatMap
      (starRun step n) ++ [s]

/-- Lazy repetition of `step`, zero or more times: the outcome of stopping here comes
before every outcome of one more iteration that moved the end index forward. -/
def lazyStarRun (step : MatchState → List MatchState) : Nat → MatchState → List MatchState
  | 0, s => [s]
  | n + 1, s =>
    s :: ((step s).filter (fun t => decide (t.rest.length < s.rest.length))).flatMap
      (lazyStarRun step n)

/-- Greedy repetition of `step` at least `lo` and at most `hi` times (the first two
arguments); once the lower bound is met an iteration has to move the end index forward. -/
def rangeRun (step : MatchState → List MatchState) : Nat → Nat → MatchState → List MatchState
  | 0, 0, s => [s]
  | _ + 1, 0, _ => []
  | 0, hi + 1, s =>
    ((step s).filter (fun t => decide (t.rest.length < s.rest.length))).flatMap
      (rangeRun step 0 hi) ++ [s]
  | lo + 1, hi + 1, s => (step s).flatMap (rangeRun step lo hi)

/-- All the ways a pattern matches at a state, in the order in which the backtracking
matcher of ECMAScript tries them; `len` is the length of the whole input.  A lookahead is
not backtracked into: `(?=r)` keeps the captures of the first way `r` matches. -/
def run (len : Nat) : Regex → MatchState → List MatchState
  | .empty => fun s => [s]
  | .bol => fun s => if s.rest.length = len then [s] else []
  | .eol => fun s => if s.rest = [] then [s] else []
  | .dot => fun s =>
    match s.rest with
    | [] => []
    | c :: cs => if isLineTerminator c then [] else [{ s with rest := cs }]
  | .char a => fun s =>
    match s.rest with
    | [] => []
    | c :: cs => if c = a then [{ s with rest := cs }] else []
  | .cls neg as => fun s =>
    match s.rest with
    | [] => []
    | c :: cs => if (as.contains c != neg) = true then [{ s with rest := cs }] else []
  | .seq r t => fun s => (run len r s).flatMap (run len t)
  | .alt r t => fun s => run len r s ++ run len t s
  | .star r => fun s =>
    starRun (fun u => run len r (clearCaps r.groups u)) s.rest.length s
  | .lazyStar r => fun s =>
    lazyStarRun (fun u => run len r (clearCaps r.groups u)) s.rest.length s
  | .plus r => fun s =>
    (run len r (clearCaps r.groups s)).flatMap
      (fun t => starRun (fun u => run len r (clearCaps r.groups u)) t.rest.length t)
  | .range lo hi r => fun s =>
    rangeRun (fun u => run len r (clearCaps r.groups u)) lo hi s
  | .group i r => fun s =>
    (run len r s).map
      (fun t => { t with caps := (i, s.rest.take (s.rest.length - t.rest.length)) :: t.caps })
  | .ncgroup r => fun s => run len r s
  | .look false r => fun s =>
    match (run len r s).head? with
    | some t => [{ s with caps := t.caps }]
    | none => []
  | .look true r => fun s =>
    match (run len r s).head? with
    | some _ => []
    | none => [s]

/-- The result of a successful match: the index where it starts, the matched substring
and the captures. -/
structure MatchResult where
  index : Nat
  whole : List Char
  caps : List (Nat × List Char)
  deriving DecidableEq, Repr

/-- Try to match at the start index whose remaining input is the argument (the input has
length `len`), then at every later one: the first success is the result. -/
def execFrom (r : Regex) (len : Nat) : List Char → Option MatchResult
  | [] =>
    match (run len r ⟨[], []⟩).head? with
    | some t => some ⟨len, [], t.caps⟩
    | none => none
  | c :: cs =>
    match (run len r ⟨c :: cs, []⟩).head? with
    | some t =>
      some ⟨len - (c :: cs).length, (c :: cs).take ((c :: cs).length - t.rest.length), t.caps⟩
    | none => execFrom r len cs

/-- The method `exec` of a regular expression without flags. -/
def exec (r : Regex) (input : List Char) : Option MatchResult :=
  execFrom r input.length input

/-- Element `k` of the match array as the substitution reads it (`matches[k] || ''`):
the whole match for 0, the capture of group `k` otherwise, empty when there is none. -/
def MatchResult.get (m : MatchResult) (k : Nat) : List Char :=
  if k = 0 then m.whole else ((m.caps.find? (fun kv => kv.1 == k)).map Prod.snd).getD []

/-- The call `new RegExp(pattern).exec(input)`. -/
def regexExec (pattern : String) (input : String) : Option MatchResult :=
  match parseRegex pattern with
  | some r => exec r input.data
  | none => none

/-- The call `new RegExp(pattern).test(input)`. -/
def regexTest (pattern : String) (input : String) : Bool :=
  (regexExec pattern input).isSome

/-! ## Globs

`testMatch` and `collectCoverageFrom` hold globs.  The test runner hands a list of globs to
its `globsToMatcher`, which matches every glob with picomatch under the option
`dot: true`.  picomatch accepts a path that is the glob itself, character for character,
and otherwise compiles the glob to the source text of a regular expression and tests the
path against it.  What follows is that compilation (`parse` and `compileRe` of picomatch on
a POSIX platform) for the part of the glob language the globs of the record use: names,
`/`, `.` after a name, `*`, `**/` at the start of the glob or after a directory, brace
lists of names, and a leading `!`.
-/

/-- The kinds of token picomatch's `parse` keeps. -/
inductive TokType where
  | bos
  | text
  | slash
  | star
  | globstar
  | brace
  | comma
  | maybeSlash
  deriving DecidableEq, Repr

/-- A token of `parse`: its kind, the text of the glob it stands for, and the regular
expression text put out for it (`none` while that is the text of the glob itself). -/
structure Tok where
  type : TokType
  value : List Char
  output : Option (List Char)
  deriving DecidableEq, Repr

/-- The state of `parse`: the regular expression text so far, the tokens (latest first,
`bos` last), whether the glob is negated, and for every open brace list whether a comma
was read in it. -/
structure GlobState where
  output : List Char
  toks : List Tok
  negated : Bool
  braces : List Bool
  deriving DecidableEq, Repr

/-- The constant `SLASH_LITERAL` of picomatch. -/
def SLASH_LITERAL : List Char := "\\/".data

/-- The constant `DOT_LITERAL` of picomatch. -/
def DOT_LITERAL : List Char := "\\.".data

/-- The constant `ONE_CHAR` of picomatch. -/
def ONE_CHAR : List Char := "(?=.)".data

/-- The constant `NO_DOTS_SLASH` of picomatch: what follows is not a path segment `.` or
`..`. -/
def NO_DOTS_SLASH : List Char := "(?!\\.\x7b1,2\x7d(?:\\/|$))".data

/-- The constant `STAR` of picomatch. -/
def STAR : List Char := "[^/]*?".data

/-- The text `globstar(opts)` of picomatch under `dot: true`: any run of characters in
which no path segment is `.` or `..`. -/
def GLOBSTAR : List Char := "(?:(?:(?!(?:^|\\/)\\.\x7b1,2\x7d(?:\\/|$)).)*?)".data

/-- The text put out for a token. -/
def Tok.out (t : Tok) : List Char := t.output.getD t.value

/-- The function `push` of `parse`: the text of the token is appended to the output; a
text token after a text token is merged into it, any other token is kept. -/
def GlobState.push (st : GlobState) (tok : Tok) : GlobState :=
  let st1 := { st with output := st.output ++ tok.out }
  match st.toks with
  | prev :: rest =>
    if prev.type = .text ∧ tok.type = .text then
      { st1 with toks := { prev with value := prev.value ++ tok.value,
                                     output := some (prev.output.getD [] ++ tok.value) } :: rest }
    else { st1 with toks := tok :: st.toks }
  | [] => { st1 with toks := [tok] }

/-- Append a text to the output and to the text of the latest token. -/
def GlobState.addToPrev (st : GlobState) (s : List Char) : GlobState :=
  match st.toks with
  | prev :: rest =>
    { st with output := st.output ++ s,
              toks := { prev with output := some (prev.output.getD [] ++ s) } :: rest }
  | [] => st

/-- The characters of a name: letters, digits and `_`. -/
def isWordChar (c : Char) : Bool := c.isAlphanum || c = '_'

/-- The loop of `parse` over the characters of a glob; the first argument bounds the
number of rounds by the length of the glob, every round reading at least one character.
A glob outside the supported part of the language is refused. -/
def parseGlobFuel : Nat → GlobState → List Char → Option GlobState
  | 0, _, _ => none
  | _ + 1, st, [] =>
    match st.braces, st.toks with
    | [], prev :: _ =>
      if prev.type = .star then some (st.push ⟨.maybeSlash, [], some (SLASH_LITERAL ++ ['?'])⟩)
      else some st
    | _, _ => none
  | n + 1, st, c :: cs =>
    match st.toks with
    | [] => none
    | prev :: older =>
      if c = '\x7b' then
        if st.braces = [] then
          parseGlobFuel n { st.push ⟨.brace, [c], some ['(']⟩ with braces := [false] } cs
        else none
      else if c = '\x7d' then
        if st.braces = [true] then
          parseGlobFuel n { st.push ⟨.brace, [c], some [')']⟩ with braces := [] } cs
        else none
      else if c = ',' then
        if st.braces = [] then none
        else parseGlobFuel n { st.push ⟨.comma, [c], some ['|']⟩ with braces := [true] } cs
      else if st.braces ≠ [] then
        if isWordChar c then parseGlobFuel n (st.push ⟨.text, [c], none⟩) cs else none
      else if c = '/' then parseGlobFuel n (st.push ⟨.slash, [c], some SLASH_LITERAL⟩) cs
      else if c = '.' then
        if prev.type = .bos ∨ prev.type = .slash then none
        else parseGlobFuel n (st.push ⟨.text, [c], some DOT_LITERAL⟩) cs
      else if c = '!' then
        if older = [] ∧ st.negated = false ∧ st.output = [] ∧ cs.head? ≠ some '!'
            ∧ cs.head? ≠ some '(' then
          parseGlobFuel n { st with negated := true } cs
        else none
      else if c = '*' then
        if prev.type = .globstar then none
        else if prev.type = .star then
          match older with
          | [] => none
          | prior :: before =>
            if "/**".data.isPrefixOf cs ∧ (cs.drop 3).head?.all (fun a => a = '/') then none
            else if prior.type = .slash ∧ (before.head?.map Tok.type) ≠ some .bos then
              match cs with
              | '/' :: cs1 =>
                let fin := if cs1 = [] then [] else "|$".data
                let priorOut := "(?:".data ++ prior.out
                let prevOut := GLOBSTAR ++ SLASH_LITERAL ++ ['|'] ++ SLASH_LITERAL ++ fin ++ [')']
                let base := st.output.take (st.output.length - (prior.out.length + prev.out.length))
                parseGlobFuel n
                  { st with output := base ++ priorOut ++ prevOut,
                            toks := ⟨.slash, ['/'], some []⟩
                              :: ⟨.globstar, prev.value ++ [c], some prevOut⟩
                              :: { prior with output := some priorOut } :: before } cs1
              | _ => none
            else if prior.type = .bos then
              match cs with
              | '/' :: cs1 =>
                let prevOut := "(?:^|".data ++ SLASH_LITERAL ++ ['|'] ++ GLOBSTAR ++ SLASH_LITERAL
                  ++ [')']
                parseGlobFuel n
                  { st with output := prevOut,
                            toks := ⟨.slash, ['/'], some []⟩
                              :: ⟨.globstar, prev.value ++ [c], some prevOut⟩ :: prior :: before } cs1
              | _ => none
            else none
        else
          let st1 :=
            if older = [] ∨ prev.type = .slash then
              let st2 := st.addToPrev NO_DOTS_SLASH
              if cs.head? ≠ some '*' then st2.addToPrev ONE_CHAR else st2
            else st
          parseGlobFuel n (st1.push ⟨.star, [c], some STAR⟩) cs
      else if isWordChar c then parseGlobFuel n (st.push ⟨.text, [c], none⟩) cs
      else none

/-- The source text of the regular expression `picomatch.makeRe(glob, {dot: true})`
builds: `^(?:output)$`, and `^(?!^(?:output)$).*$` for a negated glob.  Globs that
picomatch compiles by one of its shortcuts instead of `parse` are refused: a glob that
starts with `.` or `*` and does not end in a brace list, and a glob without `/` and
without braces that starts with neither `*` nor `!`. -/
def makeRe (glob : String) : Option String :=
  let g := glob.data
  if (g.head? = some '.' ∨ g.head? = some '*') ∧ g.getLast? ≠ some '\x7d' then none
  else if ¬ (g.head? = some '*' ∨ g.head? = some '!' ∨ '/' ∈ g ∨ '\x7b' ∈ g) then none
  else
    match parseGlobFuel (g.length + 1) ⟨[], [⟨.bos, [], some []⟩], false, []⟩ g with
    | none => none
    | some st =>
      let source := "^(?:".data ++ st.output ++ ")$".data
      some ⟨if st.negated then "^(?!".data ++ source ++ ").*$".data else source⟩

/-- The matcher `picomatch(glob, {dot: true})` applied to an input: the empty input is
never matched, an input equal to the glob is always matched, and any other input is
matched when the regular expression of the glob matches it. -/
def picomatch (glob : String) (input : String) : Bool :=
  if input = "" then false
  else if input = glob then true
  else
    match makeRe glob with
    | some source => regexTest source input
    | none => false

/-! ## How the test runner reads the fields -/

/-- The function `replacePathSepForGlob` of the runner,
`path.replace(/\\(?![$()+.?^{}])/g, '/')`: every backslash that is not followed by one of
the characters `$()+.?^{}` becomes a `/`. -/
def replacePathSepForGlobChars : List Char → List Char
  | [] => []
  | c :: cs =>
    (if c = '\\' ∧ ¬ (cs.head?.any (fun a => "$()+.?^\x7b\x7d".data.contains a) = true)
      then '/' else c) :: replacePathSepForGlobChars cs

/-- The function `replacePathSepForGlob` on strings. -/
def replacePathSepForGlob (path : String) : String :=
  ⟨replacePathSepForGlobChars path.data⟩

/-- Whether an entry of a glob list is a negated glob (`state.negated` of picomatch): it
starts with `!`. -/
def isNegated (glob : String) : Bool :=
  glob.data.head? == some '!'

/-- The glob a negated entry negates. -/
def stripNegation (glob : String) : String :=
  ⟨glob.data.drop 1⟩

/-- One round of the loop of `globsToMatcher` over its matchers: a negated glob whose
matcher rejects the path omits it, a glob that is not negated and whose matcher accepts
the path keeps it, and any other entry leaves the decision as it is. -/
def keepStep (path : String) (kept : Option Bool) (glob : String) : Option Bool :=
  if isNegated glob then
    if picomatch glob path then kept else some false
  else
    if picomatch glob path then some true else kept

/-- The matcher `globsToMatcher(globs)` of the runner applied to a path: the path
separators are replaced, the globs are read in order and the last one that decides wins;
a list of negated globs only selects every path that none of them omits, and an empty list
selects nothing. -/
def globsToMatcher (globs : List String) (path : String) : Bool :=
  if globs = [] then false
  else
    let kept := globs.foldl (keepStep (replacePathSepForGlob path)) none
    if globs.all isNegated then kept != some false else kept == some true

/-- Whether `testMatch` selects a file as a test file. -/
def isTestFile (cfg : Config) (path : String) : Bool :=
  globsToMatcher cfg.testMatch path

/-- Whether `collectCoverageFrom` selects a file.  The runner counts a file toward
coverage only when this list selects it; its other conditions on the file are not part
of the record. -/
def selectedForCoverage (cfg : Config) (path : String) : Bool :=
  globsToMatcher cfg.collectCoverageFrom path

/-- The transformer of a file: the value of the first key of `transform`, in the order of
the object literal, that matches the path. -/
def transformFor : List (String × String) → String → Option String
  | [], _ => none
  | (pattern, transformer) :: rest, path =>
    if regexTest pattern path then some transformer else transformFor rest path

/-- State of the replacement of `/\$([0-9]+)/g` in a mapper target: the output so far and,
after a `$`, the digits read since. -/
structure SubstState where
  out : List Char
  pending : Option (List Char)
  deriving DecidableEq, Repr

/-- Close a pending `$`: it stays as it is when no digit followed, and is replaced by the
element of the match array the digits name otherwise. -/
def SubstState.flush (m : MatchResult) (st : SubstState) : List Char :=
  match st.pending with
  | none => st.out
  | some [] => st.out ++ ['$']
  | some (d :: ds) => st.out ++ m.get (digitsToNat (d :: ds))

/-- Read one character of a mapper target. -/
def substStep (m : MatchResult) (st : SubstState) (c : Char) : SubstState :=
  match st.pending with
  | some ds =>
    if c.isDigit then { st with pending := some (ds ++ [c]) }
    else if c = '$' then ⟨st.flush m, some []⟩
    else ⟨st.flush m ++ [c], none⟩
  | none =>
    if c = '$' then ⟨st.out, some []⟩ else ⟨st.out ++ [c], none⟩

/-- The mapped module name: every `$n` of the target replaced by element `n` of the
match array. -/
def substitute (m : MatchResult) (target : String) : String :=
  ⟨(target.data.foldl (substStep m) ⟨[], none⟩).flush m⟩

/-- The module an import path is redirected to: the target of the first key of
`moduleNameMapper`, in the order of the object literal, that matches the path, with its
`$n` substituted; `none` when no key matches and the path is resolved as usual. -/
def resolveModule : List (String × String) → String → Option String
  | [], _ => none
  | (pattern, target) :: rest, name =>
    match regexExec pattern name with
    | some m => some (substitute m target)
    | none => resolveModule rest name

/-- Whether a string contains a line terminator. -/
def hasLineTerminator (s : String) : Bool :=
  s.data.any isLineTerminator

/-- Whether `s` starts with `pre`. -/
def startsWith (s pre : String) : Bool :=
  pre.data.isPrefixOf s.data

/-- Whether `s` ends with `suf`. -/
def endsWith (s suf : String) : Bool :=
  suf.data.isSuffixOf s.data

/-! ## Reference semantics

The definitions of this section are not run by the matchers: `Sem` says in words of
sets of strings what the matcher computes, and the patterns below are the syntax trees
of the regular expressions of the globs of the record.  The lemmas that follow prove that
the matchers agree with them.
-/

/-- Between `lo` and `hi` iterations of a step `R`; once the lower bound is met an
iteration has to shorten the remaining input. -/
def Iter (R : List Char → List Char → Prop) : Nat → Nat → List Char → List Char → Prop
  | 0, 0, x, y => x = y
  | _ + 1, 0, _, _ => False
  | 0, hi + 1, x, y => x = y ∨ ∃ z, (R x z ∧ z.length < x.length) ∧ Iter R 0 hi z y
  | lo + 1, hi + 1, x, y => ∃ z, R x z ∧ Iter R lo hi z y

/-- Declarative reading of a pattern: `Sem len r x y` says that `r`, started on the
remaining input `x` of an input of length `len`, can stop with `y` remaining. -/
def Sem (len : Nat) : Regex → List Char → List Char → Prop
  | .empty, x, y => x = y
  | .bol, x, y => x = y ∧ x.length = len
  | .eol, x, y => x = y ∧ x = []
  | .dot, x, y => ∃ c, x = c :: y ∧ isLineTerminator c = false
  | .char a, x, y => x = a :: y
  | .cls neg as, x, y => ∃ c, x = c :: y ∧ (as.contains c != neg) = true
  | .seq r t, x, y => ∃ z, Sem len r x z ∧ Sem len t z y
  | .alt r t, x, y => Sem len r x y ∨ Sem len t x y
  | .star r, x, y =>
    Relation.ReflTransGen (fun u v => Sem len r u v ∧ v.length < u.length) x y
  | .lazyStar r, x, y =>
    Relation.ReflTransGen (fun u v => Sem len r u v ∧ v.length < u.length) x y
  | .plus r, x, y =>
    ∃ z, Sem len r x z ∧
      Relation.ReflTransGen (fun u v => Sem len r u v ∧ v.length < u.length) z y
  | .range lo hi r, x, y => Iter (fun u v => Sem len r u v) lo hi x y
  | .group _ r, x, y => Sem len r x y
  | .ncgroup r, x, y => Sem len r x y
  | .look false r, x, y => x = y ∧ ∃ z, Sem len r x z
  | .look true r, x, y => x = y ∧ ¬ ∃ z, Sem len r x z

/-- The reading of a list of terms in sequence. -/
def SemList (len : Nat) : List Regex → List Char → List Char → Prop
  | [], x, y => x = y
  | t :: ts, x, y => ∃ z, Sem len t x z ∧ SemList len ts z y

/-- The characters of a name as terms. -/
def reChars (w : String) : List Regex := w.data.map Regex.char

/-- Syntax tree of `\.{1,2}(?:\/|$)`: a path segment `.` or `..`. -/
def reDotsSlash : Regex :=
  .seq (.range 1 2 (.char '.')) (.ncgroup (.alt (.char '/') .eol))

/-- Syntax tree of `NO_DOTS_SLASH`. -/
def reNoDotsSlash : Regex := .look true reDotsSlash

/-- Syntax tree of `ONE_CHAR`. -/
def reOneChar : Regex := .look false .dot

/-- Syntax tree of `STAR`. -/
def reStar : Regex := .lazyStar (.cls true ['/'])

/-- Syntax tree of `GLOBSTAR`. -/
def reGlobstar : Regex :=
  .ncgroup (.lazyStar (.ncgroup (.seq
    (.look true (.seq (.ncgroup (.alt .bol (.char '/'))) reDotsSlash)) .dot)))

/-- Syntax tree of the text put out for `**/` at the start of a glob. -/
def reLeadingGlobstar : Regex :=
  .ncgroup (.alt .bol (.alt (.char '/') (.seq reGlobstar (.char '/'))))

/-- Syntax tree of the text put out for `/**/` after a directory. -/
def reInnerGlobstar : Regex :=
  .ncgroup (.alt (mkSeq [.char '/', reNoDotsSlash, reGlobstar, .char '/'])
    (.alt (.char '/') .eol))

/-- Syntax tree of `(js|jsx|ts|tsx)` as group `i`. -/
def reExts (i : Nat) : Regex :=
  .group i (.alt (mkSeq (reChars "js")) (.alt (mkSeq (reChars "jsx"))
    (.alt (mkSeq (reChars "ts")) (mkSeq (reChars "tsx")))))

/-- Syntax tree of `^(?:body)$` for the terms of `body`. -/
def reWhole (body : List Regex) : Regex :=
  .seq .bol (.seq (.ncgroup (mkSeq body)) .eol)

/-- Syntax tree of `^(?!inner).*$`. -/
def reNegated (inner : Regex) : Regex :=
  .seq .bol (.seq (.look true inner) (.seq (.star .dot) .eol))

/-- The terms the regular expressions of `src/**/*...` start with, up to the `*` of the
file name. -/
def reSrcPrefix : List Regex :=
  reChars "src" ++ [reInnerGlobstar, reNoDotsSlash, reOneChar]

/-- The terms of the regular expression of `**/__tests__/**/*.{js,jsx,ts,tsx}`. -/
def reTestMatch0 : List Regex :=
  ([reLeadingGlobstar] ++ reChars "__tests__" ++ [reInnerGlobstar, reNoDotsSlash, reOneChar, reStar])
    ++ [.char '.', reExts 1]

/-- The terms of the regular expression of `**/*.{spec,test}.{js,jsx,ts,tsx}`. -/
def reTestMatch1 : List Regex :=
  [reLeadingGlobstar, reNoDotsSlash, reOneChar, reStar, .char '.',
    .group 1 (.alt (mkSeq (reChars "spec")) (mkSeq (reChars "test")))]
    ++ [.char '.', reExts 2]

/-- The terms of the regular expression of `src/**/*.{js,jsx,ts,tsx}`. -/
def reInclude : List Regex :=
  reSrcPrefix ++ [reStar, .char '.', reExts 1]

/-- The terms of the regular expression of `src/**/*.d.ts`. -/
def reExcludeDts : List Regex :=
  reSrcPrefix ++ (reStar :: reChars ".d.ts")

/-- The terms of the regular expression of `src/**/*.stories.{js,jsx,ts,tsx}`. -/
def reExcludeStories : List Regex :=
  reSrcPrefix ++ (reStar :: (reChars ".stories" ++ [.char '.', reExts 1]))

/-- The terms of the regular expression of `src/index.{js,ts}`. -/
def reExcludeIndex : List Regex :=
  reChars "src/index." ++ [.group 1 (.alt (mkSeq (reChars "js")) (mkSeq (reChars "ts")))]

end JestConfig

/-! ## Lemmas on the matchers -/

namespace JestConfig

set_option maxRecDepth 8000

/-- The outcomes of the greedy repetition of a step are the states reached by iterating
the step while it shortens the remaining input. -/
theorem starRun_iff (step : MatchState → List MatchState) (R : List Char → List Char → Prop)
    (hstep : ∀ u y, (∃ t ∈ step u, t.rest = y) ↔ R u.rest y) :
    ∀ (n : Nat) (s : MatchState) (y : List Char), s.rest.length ≤ n →
      ((∃ t ∈ starRun step n s, t.rest = y) ↔
        Relation.ReflTransGen (fun u v => R u v ∧ v.length < u.length) s.rest y) := by
  intro n
  induction n with
  | zero =>
    intro s y hs
    have hnil : s.rest = [] := List.length_eq_zero.mp (Nat.le_zero.mp hs)
    simp only [starRun, List.mem_singleton, exists_eq_left]
    rw [Relation.ReflTransGen.cases_head_iff]
    constructor
    · intro h; exact Or.inl h
    · rintro (h | ⟨v, ⟨_, hv⟩, _⟩)
      · exact h
      · rw [hnil] at hv; simp at hv
  | succ n ih =>
    intro s y hs
    rw [Relation.ReflTransGen.cases_head_iff]
    simp only [starRun, List.mem_append, List.mem_flatMap, List.mem_filter, decide_eq_true_eq,
      List.mem_singleton]
    constructor
    · rintro ⟨t, (⟨u, ⟨hu, hlt⟩, ht⟩ | rfl), rfl⟩
      · right
        refine ⟨u.rest, ⟨(hstep s u.rest).mp ⟨u, hu, rfl⟩, hlt⟩, ?_⟩
        exact (ih u t.rest (by omega)).mp ⟨t, ht, rfl⟩
      · left; rfl
    · rintro (h | ⟨v, ⟨hR, hlt⟩, hrest⟩)
      · exact ⟨s, Or.inr rfl, h⟩
      · obtain ⟨u, hu, rfl⟩ := (hstep s v).mpr hR
        obtain ⟨t, ht, rfl⟩ := (ih u y (by omega)).mpr hrest
        exact ⟨t, Or.inl ⟨u, ⟨hu, hlt⟩, ht⟩, rfl⟩

/-- The lazy repetition has the outcomes of the greedy one, in another order. -/
theorem lazyStarRun_iff (step : MatchState → List MatchState)
    (R : List Char → List Char → Prop)
    (hstep : ∀ u y, (∃ t ∈ step u, t.rest = y) ↔ R u.rest y) :
    ∀ (n : Nat) (s : MatchState) (y : List Char), s.rest.length ≤ n →
      ((∃ t ∈ lazyStarRun step n s, t.rest = y) ↔
        Relation.ReflTransGen (fun u v => R u v ∧ v.length < u.length) s.rest y) := by
  intro n
  induction n with
  | zero =>
    intro s y hs
    have hnil : s.rest = [] := List.length_eq_zero.mp (Nat.le_zero.mp hs)
    simp only [lazyStarRun, List.mem_singleton, exists_eq_left]
    rw [Relation.ReflTransGen.cases_head_iff]
    constructor
    · intro h; exact Or.inl h
    · rintro (h | ⟨v, ⟨_, hv⟩, _⟩)
      · exact h
      · rw [hnil] at hv; simp at hv
  | succ n ih =>
    intro s y hs
    rw [Relation.ReflTransGen.cases_head_iff]
    simp only [lazyStarRun, List.mem_cons, List.mem_flatMap, List.mem_filter, decide_eq_true_eq]
    constructor
    · rintro ⟨t, (rfl | ⟨u, ⟨hu, hlt⟩, ht⟩), rfl⟩
      · left; rfl
      · right
        refine ⟨u.rest, ⟨(hstep s u.rest).mp ⟨u, hu, rfl⟩, hlt⟩, ?_⟩
        exact (ih u t.rest (by omega)).mp ⟨t, ht, rfl⟩
    · rintro (h | ⟨v, ⟨hR, hlt⟩, hrest⟩)
      · exact ⟨s, Or.inl rfl, h⟩
      · obtain ⟨u, hu, rfl⟩ := (hstep s v).mpr hR
        obtain ⟨t, ht, rfl⟩ := (ih u y (by omega)).mpr hrest
        exact ⟨t, Or.inr ⟨u, ⟨hu, hlt⟩, ht⟩, rfl⟩

/-- The outcomes of the bounded repetition of a step. -/
theorem rangeRun_iff (step : MatchState → List MatchState) (R : List Char → List Char → Prop)
    (hstep : ∀ u y, (∃ t ∈ step u, t.rest = y) ↔ R u.rest y) :
    ∀ (hi lo : Nat) (s : MatchState) (y : List Char),
      ((∃ t ∈ rangeRun step lo hi s, t.rest = y) ↔ Iter R lo hi s.rest y) := by
  intro hi
  induction hi with
  | zero =>
    intro lo s y
    cases lo with
    | zero => simp [rangeRun, Iter]
    | succ lo => simp [rangeRun, Iter]
  | succ hi ih =>
    intro lo s y
    cases lo with
    | zero =>
      simp only [rangeRun, Iter, List.mem_append, List.mem_flatMap, List.mem_filter,
        decide_eq_true_eq, List.mem_singleton]
      constructor
      · rintro ⟨t, (⟨u, ⟨hu, hlt⟩, ht⟩ | rfl), rfl⟩
        · right
          exact ⟨u.rest, ⟨(hstep s u.rest).mp ⟨u, hu, rfl⟩, hlt⟩,
            (ih 0 u t.rest).mp ⟨t, ht, rfl⟩⟩
        · left; rfl
      · rintro (h | ⟨v, ⟨hR, hlt⟩, hrest⟩)
        · exact ⟨s, Or.inr rfl, h⟩
        · obtain ⟨u, hu, rfl⟩ := (hstep s v).mpr hR
          obtain ⟨t, ht, rfl⟩ := (ih 0 u y).mpr hrest
          exact ⟨t, Or.inl ⟨u, ⟨hu, hlt⟩, ht⟩, rfl⟩
    | succ lo =>
      simp only [rangeRun, Iter, List.mem_flatMap]
      constructor
      · rintro ⟨t, ⟨u, hu, ht⟩, rfl⟩
        exact ⟨u.rest, (hstep s u.rest).mp ⟨u, hu, rfl⟩, (ih lo u t.rest).mp ⟨t, ht, rfl⟩⟩
      · rintro ⟨v, hR, hrest⟩
        obtain ⟨u, hu, rfl⟩ := (hstep s v).mpr hR
        obtain ⟨t, ht, rfl⟩ := (ih lo u y).mpr hrest
        exact ⟨t, ⟨u, hu, ht⟩, rfl⟩

/-- A list has a first element exactly when it has an element. -/
theorem head?_eq_none_iff_forall {α : Type} (l : List α) : l.head? = none ↔ ∀ t, t ∉ l := by
  cases l with
  | nil => simp
  | cons a l => simp only [List.head?_cons, List.mem_cons, not_or]
                constructor
                · intro h; cases h
                · intro h; exact absurd rfl (h a).1

/-- The matcher agrees with the reference semantics: the remaining inputs of the outcomes
of `run` are the ones `Sem` allows. -/
theorem run_iff (len : Nat) (r : Regex) :
    ∀ (s : MatchState) (y : List Char), (∃ t ∈ run len r s, t.rest = y) ↔ Sem len r s.rest y := by
  induction r with
  | empty => intro s y; simp [run, Sem]
  | bol =>
    intro s y
    simp only [run, Sem]
    by_cases h : s.rest.length = len <;> simp [h]
  | eol =>
    intro s y
    simp only [run, Sem]
    by_cases h : s.rest = [] <;> simp [h]
  | dot =>
    intro s y
    obtain ⟨rest, caps⟩ := s
    cases rest with
    | nil => simp [run, Sem]
    | cons c cs =>
      by_cases h : isLineTerminator c = true
      · simp [run, Sem, h]
      · simp only [Bool.not_eq_true] at h
        simp only [run, Sem, h, Bool.false_eq_true, if_false, List.mem_singleton,
          exists_eq_left, List.cons.injEq]
        constructor
        · intro hy; exact ⟨c, ⟨rfl, hy⟩, h⟩
        · rintro ⟨_, ⟨_, hy⟩, _⟩; exact hy
  | char a =>
    intro s y
    obtain ⟨rest, caps⟩ := s
    cases rest with
    | nil => simp [run, Sem]
    | cons c cs =>
      by_cases h : c = a
      · simp [run, Sem, h]
      · simp [run, Sem, h]
  | cls neg as =>
    intro s y
    obtain ⟨rest, caps⟩ := s
    cases rest with
    | nil => simp [run, Sem]
    | cons c cs =>
      by_cases h : (as.contains c != neg) = true
      · simp only [run, Sem, h, if_true, List.mem_singleton, exists_eq_left, List.cons.injEq]
        constructor
        · intro hy; exact ⟨c, ⟨rfl, hy⟩, h⟩
        · rintro ⟨_, ⟨_, hy⟩, _⟩; exact hy
      · simp only [run, Sem, h, List.cons.injEq]
        constructor
        · rintro ⟨t, ht, -⟩
          simp at ht
        · rintro ⟨d, ⟨rfl, -⟩, hd⟩
          exact absurd hd h
  | seq r t ihr iht =>
    intro s y
    simp only [run, Sem, List.mem_flatMap]
    constructor
    · rintro ⟨u, ⟨m, hm, hu⟩, rfl⟩
      exact ⟨m.rest, (ihr s m.rest).mp ⟨m, hm, rfl⟩, (iht m u.rest).mp ⟨u, hu, rfl⟩⟩
    · rintro ⟨z, hr, ht⟩
      obtain ⟨m, hm, rfl⟩ := (ihr s z).mpr hr
      obtain ⟨u, hu, rfl⟩ := (iht m y).mpr ht
      exact ⟨u, ⟨m, hm, hu⟩, rfl⟩
  | alt r t ihr iht =>
    intro s y
    simp only [run, Sem, List.mem_append]
    rw [← ihr s y, ← iht s y]
    constructor
    · rintro ⟨u, (h | h), rfl⟩
      · exact Or.inl ⟨u, h, rfl⟩
      · exact Or.inr ⟨u, h, rfl⟩
    · rintro (⟨u, h, rfl⟩ | ⟨u, h, rfl⟩)
      · exact ⟨u, Or.inl h, rfl⟩
      · exact ⟨u, Or.inr h, rfl⟩
  | star r ih =>
    intro s y
    simp only [run, Sem]
    exact starRun_iff _ (Sem len r) (fun u y => ih (clearCaps r.groups u) y) _ s y (le_refl _)
  | lazyStar r ih =>
    intro s y
    simp only [run, Sem]
    exact lazyStarRun_iff _ (Sem len r) (fun u y => ih (clearCaps r.groups u) y) _ s y
      (le_refl _)
  | plus r ih =>
    intro s y
    simp only [run, Sem, List.mem_flatMap]
    have hstar := starRun_iff (fun u => run len r (clearCaps r.groups u)) (Sem len r)
      (fun u y => ih (clearCaps r.groups u) y)
    constructor
    · rintro ⟨t, ⟨m, hm, ht⟩, rfl⟩
      exact ⟨m.rest, (ih (clearCaps r.groups s) m.rest).mp ⟨m, hm, rfl⟩,
        (hstar _ m t.rest (le_refl _)).mp ⟨t, ht, rfl⟩⟩
    · rintro ⟨z, hr, hz⟩
      obtain ⟨m, hm, rfl⟩ := (ih (clearCaps r.groups s) z).mpr hr
      obtain ⟨t, ht, rfl⟩ := (hstar _ m y (le_refl _)).mpr hz
      exact ⟨t, ⟨m, hm, ht⟩, rfl⟩
  | range lo hi r ih =>
    intro s y
    simp only [run, Sem]
    exact rangeRun_iff _ (fun u v => Sem len r u v)
      (fun u y => ih (clearCaps r.groups u) y) hi lo s y
  | group i r ih =>
    intro s y
    simp only [run, Sem, List.mem_map]
    rw [← ih s y]
    constructor
    · rintro ⟨t, ⟨u, hu, rfl⟩, rfl⟩
      exact ⟨u, hu, rfl⟩
    · rintro ⟨u, hu, rfl⟩
      exact ⟨_, ⟨u, hu, rfl⟩, rfl⟩
  | ncgroup r ih =>
    intro s y
    simp only [run, Sem]
    exact ih s y
  | look neg r ih =>
    intro s y
    cases neg with
    | false =>
      simp only [run, Sem]
      cases hl : (run len r s).head? with
      | none =>
        have hn := (head?_eq_none_iff_forall _).mp hl
        simp only [List.not_mem_nil, false_and, exists_false, false_iff, not_and, not_exists]
        intro _ z hz
        obtain ⟨t, ht, -⟩ := (ih s z).mpr hz
        exact hn t ht
      | some t =>
        have ht : t ∈ run len r s := List.mem_of_mem_head? hl
        simp only [List.mem_singleton, exists_eq_left]
        constructor
        · intro h; exact ⟨h, t.rest, (ih s t.rest).mp ⟨t, ht, rfl⟩⟩
        · rintro ⟨h, -⟩; exact h
    | true =>
      simp only [run, Sem]
      cases hl : (run len r s).head? with
      | none =>
        have hn := (head?_eq_none_iff_forall _).mp hl
        simp only [List.mem_singleton, exists_eq_left]
        constructor
        · intro h
          refine ⟨h, ?_⟩
          rintro ⟨z, hz⟩
          obtain ⟨t, ht, -⟩ := (ih s z).mpr hz
          exact hn t ht
        · rintro ⟨h, -⟩; exact h
      | some t =>
        have ht : t ∈ run len r s := List.mem_of_mem_head? hl
        simp only [List.not_mem_nil, false_and, exists_false, false_iff, not_and, not_not]
        intro _
        exact ⟨t.rest, (ih s t.rest).mp ⟨t, ht, rfl⟩⟩

/-- The matcher finds a match at a start index exactly when the reference semantics has
one there. -/
theorem run_ne_nil_iff (len : Nat) (r : Regex) (b : List Char) :
    (run len r ⟨b, []⟩).head?.isSome = true ↔ ∃ y, Sem len r b y := by
  constructor
  · intro h
    cases hl : run len r ⟨b, []⟩ with
    | nil => rw [hl] at h; simp at h
    | cons t ts =>
      exact ⟨t.rest, (run_iff len r ⟨b, []⟩ t.rest).mp ⟨t, by rw [hl]; simp, rfl⟩⟩
  · rintro ⟨y, hy⟩
    obtain ⟨t, ht, -⟩ := (run_iff len r ⟨b, []⟩ y).mpr hy
    cases hl : run len r ⟨b, []⟩ with
    | nil => rw [hl] at ht; simp at ht
    | cons t ts => simp

/-- A search succeeds exactly when the pattern matches at some start index. -/
theorem execFrom_isSome (len : Nat) (r : Regex) :
    ∀ rest : List Char, (execFrom r len rest).isSome = true ↔
      ∃ a b, rest = a ++ b ∧ ∃ y, Sem len r b y := by
  intro rest
  induction rest with
  | nil =>
    have h := run_ne_nil_iff len r []
    constructor
    · intro he
      refine ⟨[], [], rfl, h.mp ?_⟩
      unfold execFrom at he
      cases hl : (run len r ⟨[], []⟩).head? with
      | none => rw [hl] at he; simp at he
      | some t => simp
    · rintro ⟨a, b, hab, hy⟩
      have hb : b = [] := by
        have := congrArg List.length hab
        simp at this
        exact List.length_eq_zero.mp (by omega)
      subst hb
      have := h.mpr hy
      unfold execFrom
      cases hl : (run len r ⟨[], []⟩).head? with
      | none => rw [hl] at this; simp at this
      | some t => simp
  | cons c cs ih =>
    have h := run_ne_nil_iff len r (c :: cs)
    unfold execFrom
    cases hl : (run len r ⟨c :: cs, []⟩).head? with
    | some t =>
      simp only [Option.isSome_some, true_iff]
      exact ⟨[], c :: cs, rfl, h.mp (by rw [hl]; rfl)⟩
    | none =>
      simp only
      rw [ih]
      constructor
      · rintro ⟨a, b, hab, hy⟩
        exact ⟨c :: a, b, by rw [hab]; rfl, hy⟩
      · rintro ⟨a, b, hab, hy⟩
        cases a with
        | nil =>
          simp only [List.nil_append] at hab
          subst hab
          have := h.mpr hy
          rw [hl] at this
          simp at this
        | cons a0 a =>
          simp only [List.cons_append, List.cons.injEq] at hab
          exact ⟨a, b, hab.2, hy⟩

/-- The method `test` of a pattern in terms of the reference semantics. -/
theorem regexTest_iff (pattern : String) (r : Regex) (hp : parseRegex pattern = some r)
    (input : String) :
    regexTest pattern input = true ↔
      ∃ a b, input.data = a ++ b ∧ ∃ y, Sem input.data.length r b y := by
  unfold regexTest regexExec
  rw [hp]
  exact execFrom_isSome _ r input.data

/-- Iterating `.` takes any run of characters other than line terminators. -/
theorem rtg_dot (len : Nat) (x y : List Char) :
    Relation.ReflTransGen (fun u v => Sem len .dot u v ∧ v.length < u.length) x y ↔
      ∃ a, (∀ c ∈ a, isLineTerminator c = false) ∧ x = a ++ y := by
  constructor
  · intro h
    induction h using Relation.ReflTransGen.head_induction_on with
    | refl => exact ⟨[], by simp, rfl⟩
    | head h1 _ ih =>
      obtain ⟨⟨c, hc, hlt⟩, -⟩ := h1
      obtain ⟨a, ha, rfl⟩ := ih
      refine ⟨c :: a, ?_, by rw [hc]; rfl⟩
      intro d hd
      rcases List.mem_cons.mp hd with rfl | hd
      · exact hlt
      · exact ha d hd
  · rintro ⟨a, ha, rfl⟩
    induction a with
    | nil => exact Relation.ReflTransGen.refl
    | cons c a ih =>
      refine Relation.ReflTransGen.head ⟨⟨c, rfl, ha c (List.mem_cons_self _ _)⟩, by simp⟩ ?_
      exact ih (fun d hd => ha d (List.mem_cons_of_mem _ hd))

theorem sem_plus_dot (len : Nat) (x y : List Char) :
    Sem len (.plus .dot) x y ↔
      ∃ a, a ≠ [] ∧ (∀ c ∈ a, isLineTerminator c = false) ∧ x = a ++ y := by
  show (∃ z, Sem len .dot x z ∧ _) ↔ _
  simp only [rtg_dot]
  constructor
  · rintro ⟨z, ⟨c, rfl, hc⟩, a, ha, rfl⟩
    refine ⟨c :: a, by simp, ?_, rfl⟩
    intro d hd
    rcases List.mem_cons.mp hd with rfl | hd
    · exact hc
    · exact ha d hd
  · rintro ⟨a, hne, ha, rfl⟩
    cases a with
    | nil => exact absurd rfl hne
    | cons c a =>
      exact ⟨a ++ y, ⟨c, rfl, ha c (List.mem_cons_self _ _)⟩, a,
        fun d hd => ha d (List.mem_cons_of_mem _ hd), rfl⟩

theorem sem_star_dot (len : Nat) (x y : List Char) :
    Sem len (.star .dot) x y ↔ ∃ a, (∀ c ∈ a, isLineTerminator c = false) ∧ x = a ++ y :=
  rtg_dot len x y

theorem sem_seq (len : Nat) (r t : Regex) (x y : List Char) :
    Sem len (.seq r t) x y ↔ ∃ z, Sem len r x z ∧ Sem len t z y := Iff.rfl

theorem sem_alt (len : Nat) (r t : Regex) (x y : List Char) :
    Sem len (.alt r t) x y ↔ (Sem len r x y ∨ Sem len t x y) := Iff.rfl

theorem sem_char (len : Nat) (a : Char) (x y : List Char) :
    Sem len (.char a) x y ↔ x = a :: y := Iff.rfl

theorem sem_bol (len : Nat) (x y : List Char) :
    Sem len .bol x y ↔ (x = y ∧ x.length = len) := Iff.rfl

theorem sem_eol (len : Nat) (x y : List Char) :
    Sem len .eol x y ↔ (x = y ∧ x = []) := Iff.rfl

theorem sem_group (len : Nat) (i : Nat) (r : Regex) (x y : List Char) :
    Sem len (.group i r) x y ↔ Sem len r x y := Iff.rfl

/-- A pattern that starts with `^` only matches at the start of the input. -/
theorem test_bol_iff (r : Regex) (input : List Char) :
    (∃ a b, input = a ++ b ∧ ∃ y, Sem input.length (.seq .bol r) b y) ↔
      ∃ y, Sem input.length r input y := by
  simp only [sem_seq, sem_bol]
  constructor
  · rintro ⟨a, b, hab, y, z, ⟨rfl, hlen⟩, hr⟩
    have ha : a = [] := by
      have := congrArg List.length hab
      simp only [List.length_append] at this
      exact List.length_eq_zero.mp (by omega)
    subst ha
    simp only [List.nil_append] at hab
    subst hab
    exact ⟨y, hr⟩
  · rintro ⟨y, hr⟩
    exact ⟨[], input, rfl, y, input, ⟨rfl, rfl⟩, hr⟩

theorem parse_ts : parseRegex "^.+\\.(ts|tsx)$" = some
    (.seq .bol (.seq (.plus .dot) (.seq (.char '.')
      (.seq (.group 1 (.alt (.seq (.char 't') (.char 's'))
        (.seq (.char 't') (.seq (.char 's') (.char 'x'))))) .eol)))) := by
  decide

theorem parse_js : parseRegex "^.+\\.(js|jsx)$" = some
    (.seq .bol (.seq (.plus .dot) (.seq (.char '.')
      (.seq (.group 1 (.alt (.seq (.char 'j') (.char 's'))
        (.seq (.char 'j') (.seq (.char 's') (.char 'x'))))) .eol)))) := by
  decide

/-- The paths the two keys of `transform` match, for the letter `k` of the key (`t` or
`j`): a non-empty run of characters other than line terminators followed by `.ks` or
`.ksx`. -/
theorem sem_transform_key (k : Char) (input : List Char) :
    (∃ a b, input = a ++ b ∧ ∃ y, Sem input.length
      (.seq .bol (.seq (.plus .dot) (.seq (.char '.')
        (.seq (.group 1 (.alt (.seq (.char k) (.char 's'))
          (.seq (.char k) (.seq (.char 's') (.char 'x'))))) .eol)))) b y) ↔
    ∃ a, a ≠ [] ∧ (∀ c ∈ a, isLineTerminator c = false) ∧
      (input = a ++ ['.', k, 's'] ∨ input = a ++ ['.', k, 's', 'x']) := by
  rw [test_bol_iff]
  simp only [sem_seq, sem_plus_dot, sem_char, sem_group, sem_alt, sem_eol]
  constructor
  · rintro ⟨y, z1, ⟨a, hne, ha, rfl⟩, z2, rfl, z3, h, rfl, rfl⟩
    refine ⟨a, hne, ha, ?_⟩
    rcases h with ⟨z4, rfl, rfl⟩ | ⟨z4, rfl, z5, rfl, rfl⟩
    · exact Or.inl rfl
    · exact Or.inr rfl
  · rintro ⟨a, hne, ha, h | h⟩
    · exact ⟨[], _, ⟨a, hne, ha, h⟩, _, rfl, [], Or.inl ⟨_, rfl, rfl⟩, rfl, rfl⟩
    · exact ⟨[], _, ⟨a, hne, ha, h⟩, _, rfl, [], Or.inr ⟨_, rfl, _, rfl, rfl⟩, rfl, rfl⟩

theorem test_ts_iff (s : String) : regexTest "^.+\\.(ts|tsx)$" s = true ↔
    ∃ a, a ≠ [] ∧ (∀ c ∈ a, isLineTerminator c = false) ∧
      (s.data = a ++ ['.', 't', 's'] ∨ s.data = a ++ ['.', 't', 's', 'x']) := by
  rw [regexTest_iff _ _ parse_ts]
  exact sem_transform_key 't' s.data

theorem test_js_iff (s : String) : regexTest "^.+\\.(js|jsx)$" s = true ↔
    ∃ a, a ≠ [] ∧ (∀ c ∈ a, isLineTerminator c = false) ∧
      (s.data = a ++ ['.', 'j', 's'] ∨ s.data = a ++ ['.', 'j', 's', 'x']) := by
  rw [regexTest_iff _ _ parse_js]
  exact sem_transform_key 'j' s.data

/-- No path is matched by both keys of `transform`. -/
theorem transform_keys_disjoint (s : String) :
    ¬ (regexTest "^.+\\.(ts|tsx)$" s = true ∧ regexTest "^.+\\.(js|jsx)$" s = true) := by
  rw [test_ts_iff, test_js_iff]
  rintro ⟨⟨a, -, -, ha⟩, ⟨b, -, -, hb⟩⟩
  rcases ha with ha | ha <;> rcases hb with hb | hb <;>
    · rw [ha] at hb
      have := congrArg List.reverse hb
      simp at this

theorem clearCaps_nil (s : MatchState) : clearCaps [] s = s := by
  simp [clearCaps]

theorem run_seq (len : Nat) (r t : Regex) (s : MatchState) :
    run len (.seq r t) s = (run len r s).flatMap (run len t) := rfl

theorem run_bol (len : Nat) (s : MatchState) :
    run len .bol s = if s.rest.length = len then [s] else [] := rfl

theorem run_eol (len : Nat) (s : MatchState) :
    run len .eol s = if s.rest = [] then [s] else [] := rfl

theorem run_char_cons (len : Nat) (a c : Char) (cs : List Char) (caps : List (Nat × List Char)) :
    run len (.char a) ⟨c :: cs, caps⟩ = if c = a then [⟨cs, caps⟩] else [] := rfl

theorem run_group (len : Nat) (i : Nat) (r : Regex) (s : MatchState) :
    run len (.group i r) s = (run len r s).map
      (fun t => { t with caps := (i, s.rest.take (s.rest.length - t.rest.length)) :: t.caps }) :=
  rfl

/-- Greedy repetition of a step that takes one character other than a line terminator:
on input without line terminators the first outcome takes all of it. -/
theorem starRun_head (step : MatchState → List MatchState)
    (hstep : ∀ c cs caps, isLineTerminator c = false → step ⟨c :: cs, caps⟩ = [⟨cs, caps⟩])
    (caps : List (Nat × List Char)) :
    ∀ p : List Char, (∀ c ∈ p, isLineTerminator c = false) →
      ∃ tl, starRun step p.length ⟨p, caps⟩ = ⟨[], caps⟩ :: tl := by
  intro p
  induction p with
  | nil => intro _; exact ⟨[], rfl⟩
  | cons c cs ih =>
    intro h
    obtain ⟨tl, htl⟩ := ih (fun d hd => h d (List.mem_cons_of_mem _ hd))
    have hc : isLineTerminator c = false := h c (List.mem_cons_self _ _)
    refine ⟨tl ++ [⟨c :: cs, caps⟩], ?_⟩
    rw [List.length_cons, starRun, hstep c cs caps hc]
    simp [htl]

theorem run_star_dot_head (len : Nat) (caps : List (Nat × List Char)) (p : List Char)
    (hp : ∀ c ∈ p, isLineTerminator c = false) :
    ∃ tl, run len (.star .dot) ⟨p, caps⟩ = ⟨[], caps⟩ :: tl := by
  apply starRun_head _ _ caps p hp
  intro c cs caps hc
  simp [run, Regex.groups, clearCaps_nil, hc]

theorem parse_alias : parseRegex "^@/(.*)$" = some
    (.seq .bol (.seq (.char '@') (.seq (.char '/') (.seq (.group 1 (.star .dot)) .eol)))) := by
  decide

theorem exec_alias (p : List Char) (hp : ∀ c ∈ p, isLineTerminator c = false) :
    exec (.seq .bol (.seq (.char '@') (.seq (.char '/') (.seq (.group 1 (.star .dot)) .eol))))
      ('@' :: '/' :: p) = some ⟨0, '@' :: '/' :: p, [(1, p)]⟩ := by
  obtain ⟨tl, htl⟩ := run_star_dot_head (p.length + 2) [] p hp
  simp only [exec, execFrom, run_seq, run_bol, run_char_cons, run_group, run_eol,
    List.length_cons, if_true, List.flatMap_cons,
    List.flatMap_nil, List.append_nil, htl, List.map_cons, List.head?_cons,
    List.cons_append, List.length_nil, Nat.sub_zero, Nat.sub_self, List.take_length]
  simp

theorem test_alias_iff (s : String) : regexTest "^@/(.*)$" s = true ↔
    ∃ p, (∀ c ∈ p, isLineTerminator c = false) ∧ s.data = '@' :: '/' :: p := by
  rw [regexTest_iff _ _ parse_alias, test_bol_iff]
  simp only [sem_seq, sem_char, sem_group, sem_star_dot, sem_eol]
  constructor
  · rintro ⟨y, z1, h1, z2, rfl, z3, ⟨p, hp, rfl⟩, rfl, rfl⟩
    exact ⟨p, hp, by rw [h1]; simp⟩
  · rintro ⟨p, hp, h⟩
    exact ⟨[], _, h, _, rfl, [], ⟨p, hp, by simp⟩, rfl, rfl⟩

theorem substitute_alias (whole p : List Char) :
    substitute ⟨0, whole, [(1, p)]⟩ "<rootDir>/src/$1" = "<rootDir>/src/" ++ ⟨p⟩ := by
  apply String.ext
  simp [substitute, substStep, SubstState.flush, MatchResult.get, digitsToNat, Char.isDigit]

theorem parse_style : parseRegex "\\.(css|less|scss|sass)$" = some
    (.seq (.char '.') (.seq (.group 1
      (.alt (.seq (.char 'c') (.seq (.char 's') (.char 's')))
      (.alt (.seq (.char 'l') (.seq (.char 'e') (.seq (.char 's') (.char 's'))))
      (.alt (.seq (.char 's') (.seq (.char 'c') (.seq (.char 's') (.char 's'))))
            (.seq (.char 's') (.seq (.char 'a') (.seq (.char 's') (.char 's')))))))) .eol)) := by
  decide

theorem parse_image : parseRegex "\\.(jpg|jpeg|png|gif|svg)$" = some
    (.seq (.char '.') (.seq (.group 1
      (.alt (.seq (.char 'j') (.seq (.char 'p') (.char 'g')))
      (.alt (.seq (.char 'j') (.seq (.char 'p') (.seq (.char 'e') (.char 'g'))))
      (.alt (.seq (.char 'p') (.seq (.char 'n') (.char 'g')))
      (.alt (.seq (.char 'g') (.seq (.char 'i') (.char 'f')))
            (.seq (.char 's') (.seq (.char 'v') (.char 'g')))))))) .eol)) := by
  decide

theorem test_style_iff (s : String) : regexTest "\\.(css|less|scss|sass)$" s = true ↔
    ∃ a, s.data = a ++ ['.', 'c', 's', 's'] ∨ s.data = a ++ ['.', 'l', 'e', 's', 's']
      ∨ s.data = a ++ ['.', 's', 'c', 's', 's'] ∨ s.data = a ++ ['.', 's', 'a', 's', 's'] := by
  rw [regexTest_iff _ _ parse_style]
  simp only [sem_seq, sem_char, sem_group, sem_alt, sem_eol]
  constructor
  · rintro ⟨a, b, hab, y, z1, rfl, z2, h, rfl, rfl⟩
    refine ⟨a, ?_⟩
    rcases h with h | h | h | h
    · obtain ⟨_, rfl, _, rfl, rfl⟩ := h
      exact Or.inl hab
    · obtain ⟨_, rfl, _, rfl, _, rfl, rfl⟩ := h
      exact Or.inr (Or.inl hab)
    · obtain ⟨_, rfl, _, rfl, _, rfl, rfl⟩ := h
      exact Or.inr (Or.inr (Or.inl hab))
    · obtain ⟨_, rfl, _, rfl, _, rfl, rfl⟩ := h
      exact Or.inr (Or.inr (Or.inr hab))
  · rintro ⟨a, h | h | h | h⟩
    · exact ⟨a, _, h, [], _, rfl, [], Or.inl ⟨_, rfl, _, rfl, rfl⟩, rfl, rfl⟩
    · exact ⟨a, _, h, [], _, rfl, [], Or.inr (Or.inl ⟨_, rfl, _, rfl, _, rfl, rfl⟩), rfl, rfl⟩
    · exact ⟨a, _, h, [], _, rfl, [],
        Or.inr (Or.inr (Or.inl ⟨_, rfl, _, rfl, _, rfl, rfl⟩)), rfl, rfl⟩
    · exact ⟨a, _, h, [], _, rfl, [],
        Or.inr (Or.inr (Or.inr ⟨_, rfl, _, rfl, _, rfl, rfl⟩)), rfl, rfl⟩

theorem test_image_iff (s : String) : regexTest "\\.(jpg|jpeg|png|gif|svg)$" s = true ↔
    ∃ a, s.data = a ++ ['.', 'j', 'p', 'g'] ∨ s.data = a ++ ['.', 'j', 'p', 'e', 'g']
      ∨ s.data = a ++ ['.', 'p', 'n', 'g'] ∨ s.data = a ++ ['.', 'g', 'i', 'f']
      ∨ s.data = a ++ ['.', 's', 'v', 'g'] := by
  rw [regexTest_iff _ _ parse_image]
  simp only [sem_seq, sem_char, sem_group, sem_alt, sem_eol]
  constructor
  · rintro ⟨a, b, hab, y, z1, rfl, z2, h, rfl, rfl⟩
    refine ⟨a, ?_⟩
    rcases h with h | h | h | h | h
    · obtain ⟨_, rfl, _, rfl, rfl⟩ := h
      exact Or.inl hab
    · obtain ⟨_, rfl, _, rfl, _, rfl, rfl⟩ := h
      exact Or.inr (Or.inl hab)
    · obtain ⟨_, rfl, _, rfl, rfl⟩ := h
      exact Or.inr (Or.inr (Or.inl hab))
    · obtain ⟨_, rfl, _, rfl, rfl⟩ := h
      exact Or.inr (Or.inr (Or.inr (Or.inl hab)))
    · obtain ⟨_, rfl, _, rfl, rfl⟩ := h
      exact Or.inr (Or.inr (Or.inr (Or.inr hab)))
  · rintro ⟨a, h | h | h | h | h⟩
    · exact ⟨a, _, h, [], _, rfl, [], Or.inl ⟨_, rfl, _, rfl, rfl⟩, rfl, rfl⟩
    · exact ⟨a, _, h, [], _, rfl, [], Or.inr (Or.inl ⟨_, rfl, _, rfl, _, rfl, rfl⟩), rfl, rfl⟩
    · exact ⟨a, _, h, [], _, rfl, [],
        Or.inr (Or.inr (Or.inl ⟨_, rfl, _, rfl, rfl⟩)), rfl, rfl⟩
    · exact ⟨a, _, h, [], _, rfl, [],
        Or.inr (Or.inr (Or.inr (Or.inl ⟨_, rfl, _, rfl, rfl⟩))), rfl, rfl⟩
    · exact ⟨a, _, h, [], _, rfl, [],
        Or.inr (Or.inr (Or.inr (Or.inr ⟨_, rfl, _, rfl, rfl⟩))), rfl, rfl⟩

/-- No import path is matched by both mock keys of `moduleNameMapper`. -/
theorem mock_keys_disjoint (s : String) :
    ¬ (regexTest "\\.(css|less|scss|sass)$" s = true
        ∧ regexTest "\\.(jpg|jpeg|png|gif|svg)$" s = true) := by
  rw [test_style_iff, test_image_iff]
  rintro ⟨⟨a, ha⟩, ⟨b, hb⟩⟩
  rcases ha with ha | ha | ha | ha <;> rcases hb with hb | hb | hb | hb | hb <;>
    · rw [ha] at hb
      have := congrArg List.reverse hb
      simp at this

theorem endsWith_iff (s suf : String) :
    endsWith s suf = true ↔ ∃ a, s.data = a ++ suf.data := by
  simp only [endsWith, List.isSuffixOf_iff_suffix]
  constructor
  · rintro ⟨a, h⟩; exact ⟨a, h.symm⟩
  · rintro ⟨a, h⟩; exact ⟨a, h.symm⟩

theorem transformFor_exports (path : String) :
    transformFor exports.transform path =
      if regexTest "^.+\\.(ts|tsx)$" path = true then some "ts-jest"
      else if regexTest "^.+\\.(js|jsx)$" path = true then some "babel-jest"
      else none := rfl

theorem transformFor_exports_reverse (path : String) :
    transformFor exports.transform.reverse path =
      if regexTest "^.+\\.(js|jsx)$" path = true then some "babel-jest"
      else if regexTest "^.+\\.(ts|tsx)$" path = true then some "ts-jest"
      else none := rfl

/-- The first key of `moduleNameMapper` redirects `@/p` to `<rootDir>/src/p`. -/
theorem resolve_alias (p : List Char) (hp : ∀ c ∈ p, isLineTerminator c = false) :
    regexExec "^@/(.*)$" ⟨'@' :: '/' :: p⟩ = some ⟨0, '@' :: '/' :: p, [(1, p)]⟩
    ∧ resolveModule exports.moduleNameMapper ⟨'@' :: '/' :: p⟩
        = some ("<rootDir>/src/" ++ ⟨p⟩) := by
  have hexec : regexExec "^@/(.*)$" ⟨'@' :: '/' :: p⟩ = some ⟨0, '@' :: '/' :: p, [(1, p)]⟩ := by
    unfold regexExec
    rw [parse_alias]
    exact exec_alias p hp
  refine ⟨hexec, ?_⟩
  simp only [exports, resolveModule, hexec, substitute_alias]

theorem sem_ncgroup (len : Nat) (r : Regex) (x y : List Char) :
    Sem len (.ncgroup r) x y ↔ Sem len r x y := Iff.rfl

theorem sem_look_neg (len : Nat) (r : Regex) (x y : List Char) :
    Sem len (.look true r) x y ↔ (x = y ∧ ¬ ∃ z, Sem len r x z) := Iff.rfl

theorem sem_look_pos (len : Nat) (r : Regex) (x y : List Char) :
    Sem len (.look false r) x y ↔ (x = y ∧ ∃ z, Sem len r x z) := Iff.rfl

/-- Iterating a step that only ever drops a prefix of the input drops a prefix. -/
theorem rtg_suffix (R : List Char → List Char → Prop)
    (hR : ∀ u v, R u v → ∃ a, u = a ++ v) (x y : List Char)
    (h : Relation.ReflTransGen (fun u v => R u v ∧ v.length < u.length) x y) :
    ∃ a, x = a ++ y := by
  induction h with
  | refl => exact ⟨[], rfl⟩
  | tail _ h2 ih =>
    obtain ⟨a, rfl⟩ := ih
    obtain ⟨b, rfl⟩ := hR _ _ h2.1
    exact ⟨a ++ b, by simp⟩

theorem iter_suffix (R : List Char → List Char → Prop)
    (hR : ∀ u v, R u v → ∃ a, u = a ++ v) :
    ∀ (hi lo : Nat) (x y : List Char), Iter R lo hi x y → ∃ a, x = a ++ y := by
  intro hi
  induction hi with
  | zero =>
    intro lo x y h
    cases lo with
    | zero => exact ⟨[], by simpa [Iter] using h⟩
    | succ lo => simp [Iter] at h
  | succ hi ih =>
    intro lo x y h
    cases lo with
    | zero =>
      simp only [Iter] at h
      rcases h with rfl | ⟨z, ⟨hz, -⟩, hrest⟩
      · exact ⟨[], rfl⟩
      · obtain ⟨a, rfl⟩ := hR _ _ hz
        obtain ⟨b, rfl⟩ := ih 0 _ _ hrest
        exact ⟨a ++ b, by simp⟩
    | succ lo =>
      simp only [Iter] at h
      obtain ⟨z, hz, hrest⟩ := h
      obtain ⟨a, rfl⟩ := hR _ _ hz
      obtain ⟨b, rfl⟩ := ih lo _ _ hrest
      exact ⟨a ++ b, by simp⟩

/-- A pattern only ever takes a prefix of the remaining input. -/
theorem sem_suffix (len : Nat) (r : Regex) :
    ∀ x y : List Char, Sem len r x y → ∃ a, x = a ++ y := by
  induction r with
  | empty => intro x y h; exact ⟨[], by simpa [Sem] using h⟩
  | bol => intro x y h; exact ⟨[], by simpa [Sem] using h.1⟩
  | eol => intro x y h; exact ⟨[], by simpa [Sem] using h.1⟩
  | dot => rintro x y ⟨c, rfl, -⟩; exact ⟨[c], rfl⟩
  | char a => intro x y h; exact ⟨[a], by simpa [Sem] using h⟩
  | cls neg as => rintro x y ⟨c, rfl, -⟩; exact ⟨[c], rfl⟩
  | seq r t ihr iht =>
    rintro x y ⟨z, h1, h2⟩
    obtain ⟨a, rfl⟩ := ihr _ _ h1
    obtain ⟨b, rfl⟩ := iht _ _ h2
    exact ⟨a ++ b, by simp⟩
  | alt r t ihr iht =>
    rintro x y (h | h)
    · exact ihr _ _ h
    · exact iht _ _ h
  | star r ih => intro x y h; exact rtg_suffix _ ih x y h
  | lazyStar r ih => intro x y h; exact rtg_suffix _ ih x y h
  | plus r ih =>
    rintro x y ⟨z, h1, h2⟩
    obtain ⟨a, rfl⟩ := ih _ _ h1
    obtain ⟨b, rfl⟩ := rtg_suffix _ ih _ _ h2
    exact ⟨a ++ b, by simp⟩
  | range lo hi r ih => intro x y h; exact iter_suffix _ ih hi lo x y h
  | group i r ih => intro x y h; exact ih _ _ h
  | ncgroup r ih => intro x y h; exact ih _ _ h
  | look neg r _ =>
    intro x y h
    cases neg with
    | false => exact ⟨[], by simpa using h.1⟩
    | true => exact ⟨[], by simpa using h.1⟩

/-- The reading of the sequence of a list of terms. -/
theorem sem_mkSeq (len : Nat) (ts : List Regex) :
    ∀ x y : List Char, Sem len (mkSeq ts) x y ↔ SemList len ts x y := by
  induction ts with
  | nil => intro x y; exact Iff.rfl
  | cons t ts ih =>
    intro x y
    cases ts with
    | nil =>
      simp only [mkSeq, SemList]
      constructor
      · intro h; exact ⟨y, h, rfl⟩
      · rintro ⟨z, h, rfl⟩; exact h
    | cons t1 ts =>
      simp only [mkSeq, SemList]
      show (∃ z, Sem len t x z ∧ Sem len (mkSeq (t1 :: ts)) z y) ↔ _
      constructor
      · rintro ⟨z, h1, h2⟩; exact ⟨z, h1, (ih z y).mp h2⟩
      · rintro ⟨z, h1, h2⟩; exact ⟨z, h1, (ih z y).mpr h2⟩

theorem semList_cons (len : Nat) (t : Regex) (ts : List Regex) (x y : List Char) :
    SemList len (t :: ts) x y ↔ ∃ z, Sem len t x z ∧ SemList len ts z y := Iff.rfl

theorem semList_nil (len : Nat) (x y : List Char) : SemList len [] x y ↔ x = y := Iff.rfl

theorem semList_append (len : Nat) (ts1 ts2 : List Regex) :
    ∀ x y : List Char, SemList len (ts1 ++ ts2) x y ↔
      ∃ z, SemList len ts1 x z ∧ SemList len ts2 z y := by
  induction ts1 with
  | nil =>
    intro x y
    simp only [List.nil_append, SemList]
    constructor
    · intro h; exact ⟨x, rfl, h⟩
    · rintro ⟨z, rfl, h⟩; exact h
  | cons t ts ih =>
    intro x y
    simp only [List.cons_append, semList_cons, ih]
    constructor
    · rintro ⟨z, h1, w, h2, h3⟩; exact ⟨w, ⟨z, h1, h2⟩, h3⟩
    · rintro ⟨w, ⟨z, h1, h2⟩, h3⟩; exact ⟨z, h1, w, h2, h3⟩

theorem semList_suffix (len : Nat) (ts : List Regex) :
    ∀ x y : List Char, SemList len ts x y → ∃ a, x = a ++ y := by
  induction ts with
  | nil => intro x y h; exact ⟨[], by simpa [SemList] using h⟩
  | cons t ts ih =>
    rintro x y ⟨z, h1, h2⟩
    obtain ⟨a, rfl⟩ := sem_suffix len t _ _ h1
    obtain ⟨b, rfl⟩ := ih _ _ h2
    exact ⟨a ++ b, by simp⟩

/-- A run of character terms matches exactly its own characters. -/
theorem semList_chars (len : Nat) (w : List Char) (ts : List Regex) :
    ∀ x y : List Char, SemList len (w.map Regex.char ++ ts) x y ↔
      ∃ z, x = w ++ z ∧ SemList len ts z y := by
  induction w with
  | nil => intro x y; simp
  | cons c w ih =>
    intro x y
    simp only [List.map_cons, List.cons_append, semList_cons, ih, sem_char]
    constructor
    · rintro ⟨z, hz, w1, rfl, h⟩
      exact ⟨w1, hz, h⟩
    · rintro ⟨z, rfl, h⟩
      exact ⟨w ++ z, rfl, z, rfl, h⟩

/-- The term `[^/]*?` takes any run of characters other than `/`. -/
theorem sem_reStar (len : Nat) (x y : List Char) :
    Sem len reStar x y ↔ ∃ a, '/' ∉ a ∧ x = a ++ y := by
  show Relation.ReflTransGen (fun u v => Sem len (.cls true ['/']) u v ∧ v.length < u.length)
    x y ↔ _
  constructor
  · intro h
    induction h using Relation.ReflTransGen.head_induction_on with
    | refl => exact ⟨[], by simp, rfl⟩
    | head h1 _ ih =>
      obtain ⟨⟨c, hc, hne⟩, -⟩ := h1
      obtain ⟨a, ha, rfl⟩ := ih
      refine ⟨c :: a, ?_, by rw [hc]; rfl⟩
      simp only [List.mem_cons, not_or]
      refine ⟨?_, ha⟩
      intro hc1
      subst hc1
      simp at hne
  · rintro ⟨a, ha, rfl⟩
    induction a with
    | nil => exact Relation.ReflTransGen.refl
    | cons c a ih =>
      simp only [List.mem_cons, not_or] at ha
      refine Relation.ReflTransGen.head ⟨⟨c, rfl, ?_⟩, by simp⟩ (ih ha.2)
      have hc : ¬ c = '/' := fun h => ha.1 h.symm
      simp [hc]

/-- The group `(js|jsx|ts|tsx)` takes one of the four extensions. -/
theorem sem_reExts (len i : Nat) (x y : List Char) :
    Sem len (reExts i) x y ↔
      (x = ['j', 's'] ++ y ∨ x = ['j', 's', 'x'] ++ y
        ∨ x = ['t', 's'] ++ y ∨ x = ['t', 's', 'x'] ++ y) := by
  simp only [reExts, sem_group, sem_alt, sem_mkSeq, reChars]
  have h := fun (w : String) => semList_chars len w.data [] x y
  simp only [List.append_nil, SemList] at h
  simp only [h]
  constructor
  · rintro (⟨z, h1, rfl⟩ | ⟨z, h1, rfl⟩ | ⟨z, h1, rfl⟩ | ⟨z, h1, rfl⟩)
    · exact Or.inl h1
    · exact Or.inr (Or.inl h1)
    · exact Or.inr (Or.inr (Or.inl h1))
    · exact Or.inr (Or.inr (Or.inr h1))
  · rintro (h1 | h1 | h1 | h1)
    · exact Or.inl ⟨y, h1, rfl⟩
    · exact Or.inr (Or.inl ⟨y, h1, rfl⟩)
    · exact Or.inr (Or.inr (Or.inl ⟨y, h1, rfl⟩))
    · exact Or.inr (Or.inr (Or.inr ⟨y, h1, rfl⟩))

/-- The expression `^(?:body)$` matches an input exactly when the terms of `body` take all
of it. -/
theorem test_reWhole (body : List Regex) (q : List Char) :
    (∃ a b, q = a ++ b ∧ ∃ y, Sem q.length (reWhole body) b y) ↔
      SemList q.length body q [] := by
  unfold reWhole
  rw [test_bol_iff]
  simp only [sem_seq, sem_ncgroup, sem_mkSeq, sem_eol]
  constructor
  · rintro ⟨y, z, h, rfl, rfl⟩; exact h
  · intro h; exact ⟨[], [], h, rfl, rfl⟩

/-- The expression `^(?!inner).*$`, for `inner` of the form `^(?:body)$`, matches an input
exactly when `inner` does not match it and it has no line terminator. -/
theorem test_reNegated (body : List Regex) (q : List Char) :
    (∃ a b, q = a ++ b ∧ ∃ y, Sem q.length (reNegated (reWhole body)) b y) ↔
      (¬ SemList q.length body q [] ∧ ∀ c ∈ q, isLineTerminator c = false) := by
  have hw : (∃ z, Sem q.length (reWhole body) q z) ↔ SemList q.length body q [] := by
    rw [← test_reWhole]
    unfold reWhole
    rw [test_bol_iff]
    simp only [sem_seq, sem_bol]
    constructor
    · rintro ⟨z, w, ⟨rfl, -⟩, h⟩; exact ⟨z, h⟩
    · rintro ⟨z, h⟩; exact ⟨z, q, ⟨rfl, trivial⟩, h⟩
  unfold reNegated
  rw [test_bol_iff]
  simp only [sem_seq, sem_look_neg, sem_star_dot, sem_eol, hw]
  constructor
  · rintro ⟨y, z, ⟨rfl, hn⟩, w, ⟨a, ha, h⟩, rfl, rfl⟩
    refine ⟨hn, ?_⟩
    simp only [List.append_nil] at h
    rw [h]; exact ha
  · rintro ⟨hn, hq⟩
    exact ⟨[], q, ⟨rfl, hn⟩, [], ⟨q, hq, by simp⟩, rfl, rfl⟩

theorem makeRe_testMatch0 : makeRe "**/__tests__/**/*.\x7bjs,jsx,ts,tsx\x7d" = some
    "^(?:(?:^|\\/|(?:(?:(?!(?:^|\\/)\\.\x7b1,2\x7d(?:\\/|$)).)*?)\\/)__tests__(?:\\/(?!\\.\x7b1,2\x7d(?:\\/|$))(?:(?:(?!(?:^|\\/)\\.\x7b1,2\x7d(?:\\/|$)).)*?)\\/|\\/|$)(?!\\.\x7b1,2\x7d(?:\\/|$))(?=.)[^/]*?\\.(js|jsx|ts|tsx))$" := by
  decide

theorem makeRe_testMatch1 : makeRe "**/*.\x7bspec,test\x7d.\x7bjs,jsx,ts,tsx\x7d" = some
    "^(?:(?:^|\\/|(?:(?:(?!(?:^|\\/)\\.\x7b1,2\x7d(?:\\/|$)).)*?)\\/)(?!\\.\x7b1,2\x7d(?:\\/|$))(?=.)[^/]*?\\.(spec|test)\\.(js|jsx|ts|tsx))$" := by
  decide

theorem makeRe_include : makeRe "src/**/*.\x7bjs,jsx,ts,tsx\x7d" = some
    "^(?:src(?:\\/(?!\\.\x7b1,2\x7d(?:\\/|$))(?:(?:(?!(?:^|\\/)\\.\x7b1,2\x7d(?:\\/|$)).)*?)\\/|\\/|$)(?!\\.\x7b1,2\x7d(?:\\/|$))(?=.)[^/]*?\\.(js|jsx|ts|tsx))$" := by
  decide

theorem makeRe_dts : makeRe "src/**/*.d.ts" = some
    "^(?:src(?:\\/(?!\\.\x7b1,2\x7d(?:\\/|$))(?:(?:(?!(?:^|\\/)\\.\x7b1,2\x7d(?:\\/|$)).)*?)\\/|\\/|$)(?!\\.\x7b1,2\x7d(?:\\/|$))(?=.)[^/]*?\\.d\\.ts)$" := by
  decide

theorem makeRe_stories : makeRe "src/**/*.stories.\x7bjs,jsx,ts,tsx\x7d" = some
    "^(?:src(?:\\/(?!\\.\x7b1,2\x7d(?:\\/|$))(?:(?:(?!(?:^|\\/)\\.\x7b1,2\x7d(?:\\/|$)).)*?)\\/|\\/|$)(?!\\.\x7b1,2\x7d(?:\\/|$))(?=.)[^/]*?\\.stories\\.(js|jsx|ts|tsx))$" := by
  decide

theorem makeRe_index : makeRe "src/index.\x7bjs,ts\x7d" = some
    "^(?:src\\/index\\.(js|ts))$" := by
  decide

theorem makeRe_not_dts : makeRe "!src/**/*.d.ts" = some
    "^(?!^(?:src(?:\\/(?!\\.\x7b1,2\x7d(?:\\/|$))(?:(?:(?!(?:^|\\/)\\.\x7b1,2\x7d(?:\\/|$)).)*?)\\/|\\/|$)(?!\\.\x7b1,2\x7d(?:\\/|$))(?=.)[^/]*?\\.d\\.ts)$).*$" := by
  decide

theorem makeRe_not_stories : makeRe "!src/**/*.stories.\x7bjs,jsx,ts,tsx\x7d" = some
    "^(?!^(?:src(?:\\/(?!\\.\x7b1,2\x7d(?:\\/|$))(?:(?:(?!(?:^|\\/)\\.\x7b1,2\x7d(?:\\/|$)).)*?)\\/|\\/|$)(?!\\.\x7b1,2\x7d(?:\\/|$))(?=.)[^/]*?\\.stories\\.(js|jsx|ts|tsx))$).*$" := by
  decide

theorem makeRe_not_index : makeRe "!src/index.\x7bjs,ts\x7d" = some
    "^(?!^(?:src\\/index\\.(js|ts))$).*$" := by
  decide

theorem parse_testMatch0 : parseRegex
    "^(?:(?:^|\\/|(?:(?:(?!(?:^|\\/)\\.\x7b1,2\x7d(?:\\/|$)).)*?)\\/)__tests__(?:\\/(?!\\.\x7b1,2\x7d(?:\\/|$))(?:(?:(?!(?:^|\\/)\\.\x7b1,2\x7d(?:\\/|$)).)*?)\\/|\\/|$)(?!\\.\x7b1,2\x7d(?:\\/|$))(?=.)[^/]*?\\.(js|jsx|ts|tsx))$"
      = some (reWhole reTestMatch0) := by
  decide

theorem parse_testMatch1 : parseRegex
    "^(?:(?:^|\\/|(?:(?:(?!(?:^|\\/)\\.\x7b1,2\x7d(?:\\/|$)).)*?)\\/)(?!\\.\x7b1,2\x7d(?:\\/|$))(?=.)[^/]*?\\.(spec|test)\\.(js|jsx|ts|tsx))$"
      = some (reWhole reTestMatch1) := by
  decide

theorem parse_include : parseRegex
    "^(?:src(?:\\/(?!\\.\x7b1,2\x7d(?:\\/|$))(?:(?:(?!(?:^|\\/)\\.\x7b1,2\x7d(?:\\/|$)).)*?)\\/|\\/|$)(?!\\.\x7b1,2\x7d(?:\\/|$))(?=.)[^/]*?\\.(js|jsx|ts|tsx))$"
      = some (reWhole reInclude) := by
  decide

theorem parse_dts : parseRegex
    "^(?:src(?:\\/(?!\\.\x7b1,2\x7d(?:\\/|$))(?:(?:(?!(?:^|\\/)\\.\x7b1,2\x7d(?:\\/|$)).)*?)\\/|\\/|$)(?!\\.\x7b1,2\x7d(?:\\/|$))(?=.)[^/]*?\\.d\\.ts)$"
      = some (reWhole reExcludeDts) := by
  decide

theorem parse_stories : parseRegex
    "^(?:src(?:\\/(?!\\.\x7b1,2\x7d(?:\\/|$))(?:(?:(?!(?:^|\\/)\\.\x7b1,2\x7d(?:\\/|$)).)*?)\\/|\\/|$)(?!\\.\x7b1,2\x7d(?:\\/|$))(?=.)[^/]*?\\.stories\\.(js|jsx|ts|tsx))$"
      = some (reWhole reExcludeStories) := by
  decide

theorem parse_index : parseRegex "^(?:src\\/index\\.(js|ts))$"
      = some (reWhole reExcludeIndex) := by
  decide

theorem parse_not_dts : parseRegex
    "^(?!^(?:src(?:\\/(?!\\.\x7b1,2\x7d(?:\\/|$))(?:(?:(?!(?:^|\\/)\\.\x7b1,2\x7d(?:\\/|$)).)*?)\\/|\\/|$)(?!\\.\x7b1,2\x7d(?:\\/|$))(?=.)[^/]*?\\.d\\.ts)$).*$"
      = some (reNegated (reWhole reExcludeDts)) := by
  decide

theorem parse_not_stories : parseRegex
    "^(?!^(?:src(?:\\/(?!\\.\x7b1,2\x7d(?:\\/|$))(?:(?:(?!(?:^|\\/)\\.\x7b1,2\x7d(?:\\/|$)).)*?)\\/|\\/|$)(?!\\.\x7b1,2\x7d(?:\\/|$))(?=.)[^/]*?\\.stories\\.(js|jsx|ts|tsx))$).*$"
      = some (reNegated (reWhole reExcludeStories)) := by
  decide

theorem parse_not_index : parseRegex "^(?!^(?:src\\/index\\.(js|ts))$).*$"
      = some (reNegated (reWhole reExcludeIndex)) := by
  decide

/-- The matcher of a glob through the syntax tree of its regular expression. -/
theorem picomatch_eval (glob source : String) (r : Regex) (hm : makeRe glob = some source)
    (hp : parseRegex source = some r) (q : String) :
    picomatch glob q =
      (if q = "" then false else if q = glob then true else (exec r q.data).isSome) := by
  simp only [picomatch, hm, regexTest, regexExec, hp]

/-- The matcher of a glob that is not negated, in the reference semantics. -/
theorem picomatch_iff (glob source : String) (body : List Regex)
    (hm : makeRe glob = some source) (hp : parseRegex source = some (reWhole body))
    (q : String) :
    picomatch glob q = true ↔
      (q ≠ "" ∧ (q = glob ∨ SemList q.data.length body q.data [])) := by
  have ht := regexTest_iff source _ hp q
  rw [test_reWhole] at ht
  simp only [picomatch, hm]
  by_cases h1 : q = ""
  · simp [h1]
  · by_cases h2 : q = glob
    · simp [h1, h2]
    · simp only [h1, h2, if_false, ht, ne_eq, not_false_eq_true, true_and, false_or]

/-- The matcher of a negated glob, in the reference semantics. -/
theorem picomatch_negated_iff (glob source : String) (body : List Regex)
    (hm : makeRe glob = some source)
    (hp : parseRegex source = some (reNegated (reWhole body))) (q : String) :
    picomatch glob q = true ↔
      (q ≠ "" ∧ (q = glob ∨
        (¬ SemList q.data.length body q.data [] ∧ ∀ c ∈ q.data, isLineTerminator c = false))) := by
  have ht := regexTest_iff source _ hp q
  rw [test_reNegated] at ht
  simp only [picomatch, hm]
  by_cases h1 : q = ""
  · simp [h1]
  · by_cases h2 : q = glob
    · simp [h1, h2]
    · simp only [h1, h2, if_false, ht, ne_eq, not_false_eq_true, true_and, false_or]

/-- Replacing the path separators leaves a tail without `/` as it is. -/
theorem replacePathSep_tail :
    ∀ (p s a : List Char), '/' ∉ s → replacePathSepForGlobChars p = a ++ s →
      ∃ a1, p = a1 ++ s ∧ a1.length = a.length := by
  intro p
  induction p with
  | nil =>
    intro s a _ h
    simp only [replacePathSepForGlobChars] at h
    have := List.append_eq_nil.mp h.symm
    exact ⟨[], by simp [this.2], by simp [this.1]⟩
  | cons c cs ih =>
    intro s a hs h
    simp only [replacePathSepForGlobChars] at h
    cases a with
    | nil =>
      simp only [List.nil_append] at h
      cases s with
      | nil => simp at h
      | cons s0 s1 =>
        simp only [List.cons.injEq] at h
        obtain ⟨h0, h1⟩ := h
        simp only [List.mem_cons, not_or] at hs
        obtain ⟨b, hb, hlen⟩ := ih s1 [] hs.2 (by simpa using h1)
        have hbnil : b = [] := List.length_eq_zero.mp (by simpa using hlen)
        subst hbnil
        have hc : c = s0 := by
          split at h0
          · exact absurd h0 hs.1
          · exact h0
        refine ⟨[], ?_, rfl⟩
        rw [hb, hc]; rfl
    | cons a0 a1 =>
      simp only [List.cons_append, List.cons.injEq] at h
      obtain ⟨b, hb, hlen⟩ := ih s a1 hs h.2
      exact ⟨c :: b, by rw [hb]; rfl, by simp [hlen]⟩

/-- Replacing the path separators neither adds nor removes a line terminator. -/
theorem replacePathSep_lineTerminator (p : List Char) :
    (replacePathSepForGlobChars p).any isLineTerminator = p.any isLineTerminator := by
  induction p with
  | nil => rfl
  | cons c cs ih =>
    simp only [replacePathSepForGlobChars, List.any_cons, ih]
    split
    · rename_i h
      rw [h.1]
      rfl
    · rfl

/-- A path that `testMatch` selects is matched by one of its two globs once its path
separators are replaced. -/
theorem isTestFile_eq (path : String) :
    isTestFile exports path =
      (picomatch "**/__tests__/**/*.\x7bjs,jsx,ts,tsx\x7d" (replacePathSepForGlob path)
        || picomatch "**/*.\x7bspec,test\x7d.\x7bjs,jsx,ts,tsx\x7d" (replacePathSepForGlob path)) := by
  have h0 : isNegated "**/__tests__/**/*.\x7bjs,jsx,ts,tsx\x7d" = false := by decide
  have h1 : isNegated "**/*.\x7bspec,test\x7d.\x7bjs,jsx,ts,tsx\x7d" = false := by decide
  simp only [isTestFile, globsToMatcher, exports, List.foldl, keepStep, h0, h1, List.all_cons,
    List.all_nil, Bool.false_and, Bool.false_eq_true, if_false, reduceCtorEq]
  cases picomatch "**/__tests__/**/*.\x7bjs,jsx,ts,tsx\x7d" (replacePathSepForGlob path) <;>
    cases picomatch "**/*.\x7bspec,test\x7d.\x7bjs,jsx,ts,tsx\x7d" (replacePathSepForGlob path) <;>
    rfl

/-- A list of terms that ends in `\.(js|jsx|ts|tsx)` takes a string that ends in one of the
four extensions. -/
theorem semList_ext (len i : Nat) (pre : List Regex) (q : List Char)
    (h : SemList len (pre ++ [.char '.', reExts i]) q []) :
    ∃ a, q = a ++ ['.', 'j', 's'] ∨ q = a ++ ['.', 'j', 's', 'x']
      ∨ q = a ++ ['.', 't', 's'] ∨ q = a ++ ['.', 't', 's', 'x'] := by
  rw [semList_append] at h
  obtain ⟨z, hpre, htail⟩ := h
  obtain ⟨a, rfl⟩ := semList_suffix len pre _ _ hpre
  simp only [semList_cons, semList_nil, sem_char, sem_reExts] at htail
  obtain ⟨z1, rfl, z2, hz, rfl⟩ := htail
  refine ⟨a, ?_⟩
  rcases hz with rfl | rfl | rfl | rfl <;> simp

/-- A path that `testMatch` selects and that is not one of its two globs ends in one of
the four extensions. -/
theorem isTestFile_ext (path : String) (h : isTestFile exports path = true)
    (hg : replacePathSepForGlob path ∉ exports.testMatch) :
    ∃ a, path.data = a ++ ['.', 'j', 's'] ∨ path.data = a ++ ['.', 'j', 's', 'x']
      ∨ path.data = a ++ ['.', 't', 's'] ∨ path.data = a ++ ['.', 't', 's', 'x'] := by
  rw [isTestFile_eq, Bool.or_eq_true] at h
  simp only [exports, List.mem_cons, List.mem_singleton, List.not_mem_nil, or_false,
    not_or] at hg
  have key : ∃ a, (replacePathSepForGlob path).data = a ++ ['.', 'j', 's']
      ∨ (replacePathSepForGlob path).data = a ++ ['.', 'j', 's', 'x']
      ∨ (replacePathSepForGlob path).data = a ++ ['.', 't', 's']
      ∨ (replacePathSepForGlob path).data = a ++ ['.', 't', 's', 'x'] := by
    rcases h with h | h
    · rw [picomatch_iff _ _ _ makeRe_testMatch0 parse_testMatch0] at h
      rcases h.2 with h2 | h2
      · exact absurd h2 hg.1
      · exact semList_ext _ 1 _ _ h2
    · rw [picomatch_iff _ _ _ makeRe_testMatch1 parse_testMatch1] at h
      rcases h.2 with h2 | h2
      · exact absurd h2 hg.2
      · exact semList_ext _ 2 _ _ h2
  obtain ⟨a, hk⟩ := key
  have hd : (replacePathSepForGlob path).data = replacePathSepForGlobChars path.data := rfl
  rw [hd] at hk
  rcases hk with hk | hk | hk | hk
  · obtain ⟨b, hb, -⟩ := replacePathSep_tail _ _ a (by decide) hk
    exact ⟨b, Or.inl hb⟩
  · obtain ⟨b, hb, -⟩ := replacePathSep_tail _ _ a (by decide) hk
    exact ⟨b, Or.inr (Or.inl hb)⟩
  · obtain ⟨b, hb, -⟩ := replacePathSep_tail _ _ a (by decide) hk
    exact ⟨b, Or.inr (Or.inr (Or.inl hb))⟩
  · obtain ⟨b, hb, -⟩ := replacePathSep_tail _ _ a (by decide) hk
    exact ⟨b, Or.inr (Or.inr (Or.inr hb))⟩

/-- A bare extension is not a test file. -/
theorem bare_ext_not_test_file :
    isTestFile exports ".ts" = false ∧ isTestFile exports ".tsx" = false
    ∧ isTestFile exports ".js" = false ∧ isTestFile exports ".jsx" = false := by
  simp only [isTestFile_eq, picomatch_eval _ _ _ makeRe_testMatch0 parse_testMatch0,
    picomatch_eval _ _ _ makeRe_testMatch1 parse_testMatch1]
  decide

/-- The method `test` of a key of `transform` through its syntax tree. -/
theorem regexTest_eval (pattern : String) (r : Regex) (hp : parseRegex pattern = some r)
    (q : String) : regexTest pattern q = (exec r q.data).isSome := by
  simp only [regexTest, regexExec, hp]

/-- A path the include glob matches starts with `s`. -/
theorem include_head (q : String)
    (h : picomatch "src/**/*.\x7bjs,jsx,ts,tsx\x7d" q = true) : q.data.head? = some 's' := by
  rw [picomatch_iff _ _ _ makeRe_include parse_include] at h
  rcases h.2 with h2 | h2
  · rw [h2]; rfl
  · unfold reInclude reSrcPrefix reChars at h2
    simp only [List.append_assoc] at h2
    rw [semList_chars] at h2
    obtain ⟨z, hz, -⟩ := h2
    rw [hz]; rfl

/-- What `*` followed by `.` and a name took, `*` followed by `\.(js|jsx|ts|tsx)` takes
when the name ends in one of the four extensions: `*` takes the rest of the name too. -/
theorem star_absorbs (len : Nat) (z a w : List Char) (i : Nat) (ha : '/' ∉ a) (hw : '/' ∉ w)
    (hz : z = a ++ w ++ ['.', 't', 's'] ∨ z = a ++ w ++ ['.', 't', 's', 'x']
      ∨ z = a ++ w ++ ['.', 'j', 's'] ∨ z = a ++ w ++ ['.', 'j', 's', 'x']) :
    SemList len [reStar, .char '.', reExts i] z [] := by
  simp only [semList_cons, semList_nil, sem_reStar, sem_char, sem_reExts]
  have hn : '/' ∉ a ++ w := by
    simp only [List.mem_append, not_or]; exact ⟨ha, hw⟩
  rcases hz with rfl | rfl | rfl | rfl
  · exact ⟨_, ⟨a ++ w, hn, rfl⟩, _, rfl, [], Or.inr (Or.inr (Or.inl rfl)), rfl⟩
  · exact ⟨_, ⟨a ++ w, hn, rfl⟩, _, rfl, [], Or.inr (Or.inr (Or.inr rfl)), rfl⟩
  · exact ⟨_, ⟨a ++ w, hn, rfl⟩, _, rfl, [], Or.inl rfl, rfl⟩
  · exact ⟨_, ⟨a ++ w, hn, rfl⟩, _, rfl, [], Or.inr (Or.inl rfl), rfl⟩

/-- Every path matched by `src/**/*.d.ts` is matched by the include glob. -/
theorem exclude_dts_subset (q : String) (h : picomatch "src/**/*.d.ts" q = true) :
    picomatch "src/**/*.\x7bjs,jsx,ts,tsx\x7d" q = true := by
  rw [picomatch_iff _ _ _ makeRe_dts parse_dts] at h
  obtain ⟨hne, h | h⟩ := h
  · rw [h, picomatch_eval _ _ _ makeRe_include parse_include]; decide
  · rw [picomatch_iff _ _ _ makeRe_include parse_include]
    refine ⟨hne, Or.inr ?_⟩
    unfold reExcludeDts at h
    unfold reInclude
    rw [semList_append] at h ⊢
    obtain ⟨z, hpre, htail⟩ := h
    refine ⟨z, hpre, ?_⟩
    rw [semList_cons] at htail
    obtain ⟨z1, hstar, hrest⟩ := htail
    obtain ⟨a, ha, rfl⟩ := (sem_reStar _ _ _).mp hstar
    have hc := (semList_chars q.data.length ".d.ts".data [] z1 []).mp
      (by simpa [reChars] using hrest)
    obtain ⟨z2, rfl, hz2⟩ := hc
    rw [semList_nil] at hz2
    subst hz2
    exact star_absorbs _ _ a ['.', 'd'] 1 ha (by decide) (Or.inl (by simp))

/-- Every path matched by `src/**/*.stories.{js,jsx,ts,tsx}`, but for the glob itself, is
matched by the include glob. -/
theorem exclude_stories_subset (q : String)
    (h : picomatch "src/**/*.stories.\x7bjs,jsx,ts,tsx\x7d" q = true)
    (hq : q ≠ "src/**/*.stories.\x7bjs,jsx,ts,tsx\x7d") :
    picomatch "src/**/*.\x7bjs,jsx,ts,tsx\x7d" q = true := by
  rw [picomatch_iff _ _ _ makeRe_stories parse_stories] at h
  obtain ⟨hne, h | h⟩ := h
  · exact absurd h hq
  · rw [picomatch_iff _ _ _ makeRe_include parse_include]
    refine ⟨hne, Or.inr ?_⟩
    unfold reExcludeStories at h
    unfold reInclude
    rw [semList_append] at h ⊢
    obtain ⟨z, hpre, htail⟩ := h
    refine ⟨z, hpre, ?_⟩
    rw [semList_cons] at htail
    obtain ⟨z1, hstar, hrest⟩ := htail
    obtain ⟨a, ha, rfl⟩ := (sem_reStar _ _ _).mp hstar
    have hc := (semList_chars q.data.length ".stories".data
      [.char '.', reExts 1] z1 []).mp (by simpa [reChars] using hrest)
    obtain ⟨z2, rfl, hz2⟩ := hc
    simp only [semList_cons, semList_nil, sem_char, sem_reExts] at hz2
    obtain ⟨z3, rfl, z4, hz4, rfl⟩ := hz2
    apply star_absorbs _ _ a ".stories".data 1 ha (by decide)
    rcases hz4 with rfl | rfl | rfl | rfl
    · exact Or.inr (Or.inr (Or.inl (by simp)))
    · exact Or.inr (Or.inr (Or.inr (by simp)))
    · exact Or.inl (by simp)
    · exact Or.inr (Or.inl (by simp))

/-- The paths the regular expression of `src/index.{js,ts}` matches. -/
theorem semList_index (len : Nat) (q : List Char) (h : SemList len reExcludeIndex q []) :
    q = "src/index.js".data ∨ q = "src/index.ts".data := by
  unfold reExcludeIndex reChars at h
  rw [semList_chars] at h
  obtain ⟨z, rfl, hz⟩ := h
  simp only [semList_cons, semList_nil, sem_group, sem_alt, sem_mkSeq] at hz
  obtain ⟨z1, hz1, rfl⟩ := hz
  rcases hz1 with h1 | h1
  · have := (semList_chars len "js".data [] z []).mp (by simpa [reChars] using h1)
    obtain ⟨w, rfl, hw⟩ := this
    rw [semList_nil] at hw; subst hw
    exact Or.inl rfl
  · have := (semList_chars len "ts".data [] z []).mp (by simpa [reChars] using h1)
    obtain ⟨w, rfl, hw⟩ := this
    rw [semList_nil] at hw; subst hw
    exact Or.inr rfl

/-- Every path matched by `src/index.{js,ts}`, but for the glob itself, is matched by the
include glob. -/
theorem exclude_index_subset (q : String)
    (h : picomatch "src/index.\x7bjs,ts\x7d" q = true) (hq : q ≠ "src/index.\x7bjs,ts\x7d") :
    picomatch "src/**/*.\x7bjs,jsx,ts,tsx\x7d" q = true := by
  rw [picomatch_iff _ _ _ makeRe_index parse_index] at h
  obtain ⟨-, h | h⟩ := h
  · exact absurd h hq
  · rcases semList_index _ _ h with h1 | h1
    · have hp : q = "src/index.js" := String.ext h1
      rw [hp, picomatch_eval _ _ _ makeRe_include parse_include]; decide
    · have hp : q = "src/index.ts" := String.ext h1
      rw [hp, picomatch_eval _ _ _ makeRe_include parse_include]; decide

/-- The list `collectCoverageFrom` selects a path when, once its path separators are
replaced, the matcher of every one of its four entries accepts it. -/
theorem selectedForCoverage_eq (path : String) :
    selectedForCoverage exports path =
      (picomatch "src/**/*.\x7bjs,jsx,ts,tsx\x7d" (replacePathSepForGlob path)
        && picomatch "!src/**/*.d.ts" (replacePathSepForGlob path)
        && picomatch "!src/**/*.stories.\x7bjs,jsx,ts,tsx\x7d" (replacePathSepForGlob path)
        && picomatch "!src/index.\x7bjs,ts\x7d" (replacePathSepForGlob path)) := by
  have h0 : isNegated "src/**/*.\x7bjs,jsx,ts,tsx\x7d" = false := by decide
  have h1 : isNegated "!src/**/*.d.ts" = true := by decide
  have h2 : isNegated "!src/**/*.stories.\x7bjs,jsx,ts,tsx\x7d" = true := by decide
  have h3 : isNegated "!src/index.\x7bjs,ts\x7d" = true := by decide
  simp only [selectedForCoverage, globsToMatcher, exports, List.foldl, keepStep, h0, h1, h2, h3,
    List.all_cons, List.all_nil, Bool.false_and, Bool.false_eq_true, if_false, if_true,
    reduceCtorEq]
  cases picomatch "src/**/*.\x7bjs,jsx,ts,tsx\x7d" (replacePathSepForGlob path) <;>
    cases picomatch "!src/**/*.d.ts" (replacePathSepForGlob path) <;>
    cases picomatch "!src/**/*.stories.\x7bjs,jsx,ts,tsx\x7d" (replacePathSepForGlob path) <;>
    cases picomatch "!src/index.\x7bjs,ts\x7d" (replacePathSepForGlob path) <;>
    rfl

/-- A negated entry of `collectCoverageFrom` accepts a path that the include glob matches
exactly when the path has no line terminator and the glob it negates does not match the
path. -/
theorem negated_entry_iff (glob neg source nsource : String) (body : List Regex)
    (hm : makeRe glob = some source) (hp : parseRegex source = some (reWhole body))
    (hnm : makeRe neg = some nsource)
    (hnp : parseRegex nsource = some (reNegated (reWhole body)))
    (hneg : neg.data.head? = some '!')
    (hself : glob = "src/**/*.d.ts" ∨ picomatch "src/**/*.\x7bjs,jsx,ts,tsx\x7d" glob = false)
    (hdts : glob = "src/**/*.d.ts" → picomatch neg glob = false)
    (q : String) (hI : picomatch "src/**/*.\x7bjs,jsx,ts,tsx\x7d" q = true) :
    picomatch neg q = true ↔ (hasLineTerminator q = false ∧ picomatch glob q = false) := by
  have hhead := include_head q hI
  have hne : q ≠ "" := ((picomatch_iff _ _ _ makeRe_include parse_include q).mp hI).1
  have hqn : q ≠ neg := by
    intro h
    rw [h, hneg] at hhead
    exact absurd hhead (by decide)
  rw [picomatch_negated_iff _ _ _ hnm hnp]
  constructor
  · rintro ⟨-, h | ⟨hs, hl⟩⟩
    · exact absurd h hqn
    · refine ⟨by simpa [hasLineTerminator] using hl, ?_⟩
      cases hg : picomatch glob q with
      | false => rfl
      | true =>
        rcases ((picomatch_iff _ _ _ hm hp q).mp hg).2 with h1 | h1
        · exfalso
          rcases hself with h2 | h2
          · have h3 := hdts h2
            rw [← h1] at h3
            have : picomatch neg q = true :=
              (picomatch_negated_iff _ _ _ hnm hnp q).mpr ⟨hne, Or.inr ⟨hs, hl⟩⟩
            rw [h3] at this
            exact Bool.noConfusion this
          · rw [← h1, hI] at h2
            exact Bool.noConfusion h2
        · exact absurd h1 hs
  · rintro ⟨hl, hg⟩
    refine ⟨hne, Or.inr ⟨?_, by simpa [hasLineTerminator] using hl⟩⟩
    intro hs
    have : picomatch glob q = true := (picomatch_iff _ _ _ hm hp q).mpr ⟨hne, Or.inr hs⟩
    rw [hg] at this
    exact Bool.noConfusion this

/-- The list `collectCoverageFrom` selects a path exactly when the path has no line
terminator, the include glob matches it and none of the three globs that the negated
entries negate does (all once its path separators are replaced). -/
theorem selectedForCoverage_iff (path : String) :
    selectedForCoverage exports path = true ↔
      (picomatch "src/**/*.\x7bjs,jsx,ts,tsx\x7d" (replacePathSepForGlob path) = true
        ∧ hasLineTerminator path = false
        ∧ picomatch "src/**/*.d.ts" (replacePathSepForGlob path) = false
        ∧ picomatch "src/**/*.stories.\x7bjs,jsx,ts,tsx\x7d" (replacePathSepForGlob path) = false
        ∧ picomatch "src/index.\x7bjs,ts\x7d" (replacePathSepForGlob path) = false) := by
  have hlt : hasLineTerminator (replacePathSepForGlob path) = hasLineTerminator path :=
    replacePathSep_lineTerminator path.data
  have e1 := negated_entry_iff "src/**/*.d.ts" "!src/**/*.d.ts" _ _ _ makeRe_dts parse_dts
    makeRe_not_dts parse_not_dts rfl (Or.inl rfl)
    (fun _ => by rw [picomatch_eval _ _ _ makeRe_not_dts parse_not_dts]; decide)
    (replacePathSepForGlob path)
  have e2 := negated_entry_iff "src/**/*.stories.\x7bjs,jsx,ts,tsx\x7d"
    "!src/**/*.stories.\x7bjs,jsx,ts,tsx\x7d" _ _ _ makeRe_stories parse_stories
    makeRe_not_stories parse_not_stories rfl
    (Or.inr (by rw [picomatch_eval _ _ _ makeRe_include parse_include]; decide))
    (fun h => absurd h (by decide))
    (replacePathSepForGlob path)
  have e3 := negated_entry_iff "src/index.\x7bjs,ts\x7d" "!src/index.\x7bjs,ts\x7d" _ _ _
    makeRe_index parse_index makeRe_not_index parse_not_index rfl
    (Or.inr (by rw [picomatch_eval _ _ _ makeRe_include parse_include]; decide))
    (fun h => absurd h (by decide))
    (replacePathSepForGlob path)
  rw [selectedForCoverage_eq]
  simp only [Bool.and_eq_true]
  constructor
  · rintro ⟨⟨⟨hI, h1⟩, h2⟩, h3⟩
    have a1 := (e1 hI).mp h1
    have a2 := (e2 hI).mp h2
    have a3 := (e3 hI).mp h3
    exact ⟨hI, by rw [← hlt]; exact a1.1, a1.2, a2.2, a3.2⟩
  · rintro ⟨hI, hl, h1, h2, h3⟩
    rw [← hlt] at hl
    exact ⟨⟨⟨hI, (e1 hI).mpr ⟨hl, h1⟩⟩, (e2 hI).mpr ⟨hl, h2⟩⟩, (e3 hI).mpr ⟨hl, h3⟩⟩

end JestConfig

/-! ## The claims -/

open JestConfig

set_option maxRecDepth 8000

/-- C1: `coverageThreshold.global` has exactly the four entries branches, functions,
lines and statements, every entry is a number between 0 and 100 and equals 80, and the
threshold for branches is 80. -/
theorem coverageThreshold_global_all_80 :
    keys exports.coverageThreshold.global = ["branches", "functions", "lines", "statements"]
    ∧ exports.coverageThreshold.global.length = 4
    ∧ (∀ kv ∈ exports.coverageThreshold.global, 0 ≤ kv.2 ∧ kv.2 ≤ 100 ∧ kv.2 = 80)
    ∧ getProp exports.coverageThreshold.global "branches" = some 80
    ∧ getProp exports.coverageThreshold.global "functions" = some 80
    ∧ getProp exports.coverageThreshold.global "lines" = some 80
    ∧ getProp exports.coverageThreshold.global "statements" = some 80 := by
  refine ⟨by decide, by decide, ?_, by decide, by decide, by decide, by decide⟩
  intro kv hkv
  simp only [exports, List.mem_cons, List.mem_singleton, List.not_mem_nil, or_false] at hkv
  rcases hkv with h | h | h | h <;> subst h <;> decide

/-- C2: the per-test timeout `testTimeout` is the positive integer 10000. -/
theorem testTimeout_eq_10000 :
    exports.testTimeout = 10000 ∧ 0 < exports.testTimeout := by
  decide

/-- C3 as stated fails: the first element of `reporters` is the bare string `'default'`,
not a pair `[name, options]`. -/
theorem reporters_not_all_pairs :
    ¬ (∀ e ∈ exports.reporters, e.isPair = true) := by
  decide

/-- C3, amended: every element of `reporters` is a reporter specification, either a bare
reporter name or a pair `[name, options]`; the first element is the bare name `'default'`
and the second, `'jest-junit'`, is the only pair. -/
theorem reporters_bare_or_pair :
    (∀ e ∈ exports.reporters,
      (e.isPair = false ∧ e.options? = none) ∨ (e.isPair = true ∧ ∃ o, e.options? = some o))
    ∧ exports.reporters.map ReporterEntry.isPair = [false, true]
    ∧ exports.reporters.head? = some (.bare "default")
    ∧ (exports.reporters.filter ReporterEntry.isPair).map ReporterEntry.name
        = ["jest-junit"] := by
  refine ⟨?_, by decide, by decide, by decide⟩
  intro e he
  simp only [exports, List.mem_cons, List.mem_singleton, List.not_mem_nil, or_false] at he
  rcases he with h | h <;> subst h
  · exact Or.inl ⟨rfl, rfl⟩
  · exact Or.inr ⟨rfl, _, rfl⟩

/-- C4: `reporters` is the built-in `'default'` reporter followed by `'jest-junit'`, whose
options are `outputDirectory` `'.'`, `outputName` `'junit.xml'`, `classNameTemplate`
`'{classname}'` and `titleTemplate` `'{title}'`. -/
theorem reporters_default_then_junit :
    exports.reporters.map ReporterEntry.name = ["default", "jest-junit"]
    ∧ exports.reporters.length = 2
    ∧ (∃ o, exports.reporters.get? 1 = some (.pair "jest-junit" o)
        ∧ keys o = ["outputDirectory", "outputName", "classNameTemplate", "titleTemplate"]
        ∧ getProp o "outputDirectory" = some "."
        ∧ getProp o "outputName" = some "junit.xml"
        ∧ getProp o "classNameTemplate" = some "\x7bclassname\x7d"
        ∧ getProp o "titleTemplate" = some "\x7btitle\x7d") := by
  refine ⟨by decide, by decide, _, rfl, by decide, by decide, by decide, by decide, by decide⟩

/-- C5: `testEnvironment` is one of the two environments `'node'` and `'jsdom'`, and it is
`'node'`. -/
theorem testEnvironment_is_node :
    exports.testEnvironment ∈ testEnvironments
    ∧ testEnvironments = ["node", "jsdom"]
    ∧ exports.testEnvironment = "node" := by
  decide

/-- C6: `testMatch` and `testPathIgnorePatterns` are the two and the three patterns of the
source, in the order of the source, and neither list repeats a pattern. -/
theorem testMatch_and_ignore_patterns :
    exports.testMatch
        = ["**/__tests__/**/*.\x7bjs,jsx,ts,tsx\x7d",
           "**/*.\x7bspec,test\x7d.\x7bjs,jsx,ts,tsx\x7d"]
    ∧ exports.testPathIgnorePatterns = ["/node_modules/", "/dist/", "/build/"]
    ∧ exports.testMatch.Nodup
    ∧ exports.testPathIgnorePatterns.Nodup := by
  refine ⟨rfl, rfl, by decide, by decide⟩

/-- C7: for a string `p` without line terminator the import path `@/p` is matched in full
by the first key of `moduleNameMapper`, `^@/(.*)$`, with group 1 equal to `p`, and is
redirected to `<rootDir>/src/p`; an import path that does not start with `@/` is not
matched by that key. -/
theorem alias_redirects_into_src (p s : String)
    (hp : hasLineTerminator p = false) (hs : startsWith s "@/" = false) :
    exports.moduleNameMapper.head? = some ("^@/(.*)$", "<rootDir>/src/$1")
    ∧ regexExec "^@/(.*)$" ("@/" ++ p) = some ⟨0, ("@/" ++ p).data, [(1, p.data)]⟩
    ∧ substitute ⟨0, ("@/" ++ p).data, [(1, p.data)]⟩ "<rootDir>/src/$1" = "<rootDir>/src/" ++ p
    ∧ resolveModule exports.moduleNameMapper ("@/" ++ p) = some ("<rootDir>/src/" ++ p)
    ∧ regexTest "^@/(.*)$" s = false := by
  have hp1 : ∀ c ∈ p.data, isLineTerminator c = false := by
    simpa [hasLineTerminator] using hp
  have hdata : ("@/" ++ p).data = '@' :: '/' :: p.data := by
    simp [String.data_append]
  have hexec : regexExec "^@/(.*)$" ("@/" ++ p) = some ⟨0, ("@/" ++ p).data, [(1, p.data)]⟩ := by
    unfold regexExec
    rw [parse_alias, hdata]
    exact exec_alias p.data hp1
  have hsub : substitute ⟨0, ("@/" ++ p).data, [(1, p.data)]⟩ "<rootDir>/src/$1"
      = "<rootDir>/src/" ++ p := substitute_alias _ _
  refine ⟨rfl, hexec, hsub, ?_, ?_⟩
  · simp only [exports, resolveModule, hexec, hsub]
  · cases h : regexTest "^@/(.*)$" s with
    | false => rfl
    | true =>
      obtain ⟨q, -, hq⟩ := (test_alias_iff s).mp h
      simp [startsWith, hq, List.isPrefixOf] at hs

/-- C7 at `p = styles/app.css` and the bare import path `lodash`. -/
theorem alias_redirects_into_src_witness :
    hasLineTerminator "styles/app.css" = false
    ∧ startsWith "lodash" "@/" = false
    ∧ regexExec "^@/(.*)$" "@/styles/app.css"
        = some ⟨0, "@/styles/app.css".data, [(1, "styles/app.css".data)]⟩
    ∧ resolveModule exports.moduleNameMapper "@/styles/app.css"
        = some "<rootDir>/src/styles/app.css"
    ∧ regexTest "^@/(.*)$" "lodash" = false :=
  have h := alias_redirects_into_src "styles/app.css" "lodash" (by decide) (by decide)
  ⟨by decide, by decide, h.2.1, h.2.2.2.1, h.2.2.2.2⟩

/-- C8 as stated fails, twice.  The path `/app/src/a⏎b.test.ts`, whose file name contains
a line feed (written `⏎`), is a test file by the second glob of `testMatch`, and neither
key of `transform` matches it, because `.` does not match a line terminator.  The path
`**/*.{spec,test}.{js,jsx,ts,tsx}`, which has no line terminator, is a test file because the
glob matcher accepts a path that is the glob itself, and neither key of `transform`
matches it, because it ends in a brace. -/
theorem test_file_without_transformer :
    (isTestFile exports "/app/src/a\nb.test.ts" = true
      ∧ picomatch "**/*.\x7bspec,test\x7d.\x7bjs,jsx,ts,tsx\x7d" "/app/src/a\nb.test.ts" = true
      ∧ regexTest "^.+\\.(ts|tsx)$" "/app/src/a\nb.test.ts" = false
      ∧ regexTest "^.+\\.(js|jsx)$" "/app/src/a\nb.test.ts" = false
      ∧ transformFor exports.transform "/app/src/a\nb.test.ts" = none)
    ∧ (isTestFile exports "**/*.\x7bspec,test\x7d.\x7bjs,jsx,ts,tsx\x7d" = true
      ∧ hasLineTerminator "**/*.\x7bspec,test\x7d.\x7bjs,jsx,ts,tsx\x7d" = false
      ∧ regexTest "^.+\\.(ts|tsx)$" "**/*.\x7bspec,test\x7d.\x7bjs,jsx,ts,tsx\x7d" = false
      ∧ regexTest "^.+\\.(js|jsx)$" "**/*.\x7bspec,test\x7d.\x7bjs,jsx,ts,tsx\x7d" = false
      ∧ transformFor exports.transform "**/*.\x7bspec,test\x7d.\x7bjs,jsx,ts,tsx\x7d" = none) := by
  simp only [isTestFile_eq, transformFor_exports,
    picomatch_eval _ _ _ makeRe_testMatch0 parse_testMatch0,
    picomatch_eval _ _ _ makeRe_testMatch1 parse_testMatch1,
    regexTest_eval _ _ parse_ts, regexTest_eval _ _ parse_js]
  decide

/-- C8, amended: a path without line terminator that `testMatch` selects, and that is not
(once its path separators are replaced) one of the two globs of `testMatch` itself, is
matched by exactly one of the two keys of `transform`; it is transformed by `ts-jest` when
it ends in `.ts` or `.tsx` and by `babel-jest` when it ends in `.js` or `.jsx`.  For every
path `q` whatever, the two keys do not both match, so the transformer does not depend on
the order of the keys. -/
theorem test_files_have_one_transformer (path q : String)
    (ht : isTestFile exports path = true) (hl : hasLineTerminator path = false)
    (hg : replacePathSepForGlob path ∉ exports.testMatch) :
    exports.transform = [("^.+\\.(ts|tsx)$", "ts-jest"), ("^.+\\.(js|jsx)$", "babel-jest")]
    ∧ (regexTest "^.+\\.(ts|tsx)$" path = true ∨ regexTest "^.+\\.(js|jsx)$" path = true)
    ∧ ¬ (regexTest "^.+\\.(ts|tsx)$" path = true ∧ regexTest "^.+\\.(js|jsx)$" path = true)
    ∧ (regexTest "^.+\\.(ts|tsx)$" path = true ↔
        (endsWith path ".ts" = true ∨ endsWith path ".tsx" = true))
    ∧ (regexTest "^.+\\.(js|jsx)$" path = true ↔
        (endsWith path ".js" = true ∨ endsWith path ".jsx" = true))
    ∧ (endsWith path ".ts" = true ∨ endsWith path ".tsx" = true →
        transformFor exports.transform path = some "ts-jest")
    ∧ (endsWith path ".js" = true ∨ endsWith path ".jsx" = true →
        transformFor exports.transform path = some "babel-jest")
    ∧ ¬ (regexTest "^.+\\.(ts|tsx)$" q = true ∧ regexTest "^.+\\.(js|jsx)$" q = true)
    ∧ transformFor exports.transform.reverse q = transformFor exports.transform q := by
  have hnl : ∀ c ∈ path.data, isLineTerminator c = false := by
    simpa [hasLineTerminator] using hl
  -- a suffix `.ext` of a test file leaves a non-empty stem without line terminator
  have stem : ∀ (a ext : List Char), path.data = a ++ ext →
      isTestFile exports ⟨ext⟩ = false →
      a ≠ [] ∧ ∀ c ∈ a, isLineTerminator c = false := by
    intro a ext h hext
    constructor
    · rintro rfl
      have hp : path = ⟨ext⟩ := String.ext (by simpa using h)
      rw [hp, hext] at ht
      exact Bool.noConfusion ht
    · intro c hc
      exact hnl c (by rw [h]; exact List.mem_append_left _ hc)
  have hbare := bare_ext_not_test_file
  have hts : regexTest "^.+\\.(ts|tsx)$" path = true ↔
      (endsWith path ".ts" = true ∨ endsWith path ".tsx" = true) := by
    rw [test_ts_iff, endsWith_iff, endsWith_iff]
    constructor
    · rintro ⟨a, -, -, h | h⟩
      · exact Or.inl ⟨a, h⟩
      · exact Or.inr ⟨a, h⟩
    · rintro (⟨a, h⟩ | ⟨a, h⟩)
      · obtain ⟨h1, h2⟩ := stem a _ h hbare.1
        exact ⟨a, h1, h2, Or.inl h⟩
      · obtain ⟨h1, h2⟩ := stem a _ h hbare.2.1
        exact ⟨a, h1, h2, Or.inr h⟩
  have hjs : regexTest "^.+\\.(js|jsx)$" path = true ↔
      (endsWith path ".js" = true ∨ endsWith path ".jsx" = true) := by
    rw [test_js_iff, endsWith_iff, endsWith_iff]
    constructor
    · rintro ⟨a, -, -, h | h⟩
      · exact Or.inl ⟨a, h⟩
      · exact Or.inr ⟨a, h⟩
    · rintro (⟨a, h⟩ | ⟨a, h⟩)
      · obtain ⟨h1, h2⟩ := stem a _ h hbare.2.2.1
        exact ⟨a, h1, h2, Or.inl h⟩
      · obtain ⟨h1, h2⟩ := stem a _ h hbare.2.2.2
        exact ⟨a, h1, h2, Or.inr h⟩
  have hcover : regexTest "^.+\\.(ts|tsx)$" path = true
      ∨ regexTest "^.+\\.(js|jsx)$" path = true := by
    obtain ⟨a, h⟩ := isTestFile_ext path ht hg
    rw [hts, hjs]
    simp only [endsWith_iff]
    rcases h with h | h | h | h
    · exact Or.inr (Or.inl ⟨a, h⟩)
    · exact Or.inr (Or.inr ⟨a, h⟩)
    · exact Or.inl (Or.inl ⟨a, h⟩)
    · exact Or.inl (Or.inr ⟨a, h⟩)
  refine ⟨rfl, hcover, transform_keys_disjoint path, hts, hjs, ?_, ?_,
    transform_keys_disjoint q, ?_⟩
  · intro h
    rw [transformFor_exports, if_pos (hts.mpr h)]
  · intro h
    have hj := hjs.mpr h
    have hnt : ¬ regexTest "^.+\\.(ts|tsx)$" path = true :=
      fun h' => transform_keys_disjoint path ⟨h', hj⟩
    rw [transformFor_exports, if_neg hnt, if_pos hj]
  · rw [transformFor_exports, transformFor_exports_reverse]
    have hd := transform_keys_disjoint q
    by_cases h1 : regexTest "^.+\\.(ts|tsx)$" q = true <;>
      by_cases h2 : regexTest "^.+\\.(js|jsx)$" q = true <;> simp [h1, h2]
    exact hd ⟨h1, h2⟩

/-- C8, amended, at the test file `src/app.test.tsx`. -/
theorem test_files_have_one_transformer_witness :
    isTestFile exports "src/app.test.tsx" = true
    ∧ hasLineTerminator "src/app.test.tsx" = false
    ∧ replacePathSepForGlob "src/app.test.tsx" ∉ exports.testMatch
    ∧ transformFor exports.transform "src/app.test.tsx" = some "ts-jest" :=
  have ht : isTestFile exports "src/app.test.tsx" = true := by
    simp only [isTestFile_eq, picomatch_eval _ _ _ makeRe_testMatch0 parse_testMatch0,
      picomatch_eval _ _ _ makeRe_testMatch1 parse_testMatch1]
    decide
  have hg : replacePathSepForGlob "src/app.test.tsx" ∉ exports.testMatch := by decide
  ⟨ht, by decide, hg,
    (test_files_have_one_transformer "src/app.test.tsx" "src/app.test.tsx"
      ht (by decide) hg).2.2.2.2.2.1 (Or.inr (by decide))⟩

/-- C9: the keys of `moduleNameMapper` overlap.  The import paths `@/styles/app.css` and
`@/img/logo.png` are matched by the alias key and by a mock key, and are redirected into
`<rootDir>/src/`; every import path `name` that the alias key matches is `@/p` and is
redirected to `<rootDir>/src/p`, the target of the first key, not to the target of a mock
key.  The style key and the image key never both match. -/
theorem mapper_alias_shadows_mocks (name : String) :
    exports.moduleNameMapper.map Prod.fst
        = ["^@/(.*)$", "\\.(css|less|scss|sass)$", "\\.(jpg|jpeg|png|gif|svg)$"]
    ∧ (regexTest "^@/(.*)$" "@/styles/app.css" = true
        ∧ regexTest "\\.(css|less|scss|sass)$" "@/styles/app.css" = true
        ∧ resolveModule exports.moduleNameMapper "@/styles/app.css"
            = some "<rootDir>/src/styles/app.css")
    ∧ (regexTest "^@/(.*)$" "@/img/logo.png" = true
        ∧ regexTest "\\.(jpg|jpeg|png|gif|svg)$" "@/img/logo.png" = true
        ∧ resolveModule exports.moduleNameMapper "@/img/logo.png"
            = some "<rootDir>/src/img/logo.png")
    ∧ (regexTest "^@/(.*)$" name = true →
        ∃ p : String, name = "@/" ++ p
          ∧ resolveModule exports.moduleNameMapper name = some ("<rootDir>/src/" ++ p)
          ∧ resolveModule exports.moduleNameMapper name ≠ some "identity-obj-proxy"
          ∧ resolveModule exports.moduleNameMapper name
              ≠ some "<rootDir>/__mocks__/fileMock.js")
    ∧ ¬ (regexTest "\\.(css|less|scss|sass)$" name = true
          ∧ regexTest "\\.(jpg|jpeg|png|gif|svg)$" name = true) := by
  refine ⟨rfl, by decide, by decide, ?_, mock_keys_disjoint name⟩
  intro h
  obtain ⟨p, hp, hdata⟩ := (test_alias_iff name).mp h
  have hname : name = ⟨'@' :: '/' :: p⟩ := String.ext hdata
  have hres := (resolve_alias p hp).2
  rw [← hname] at hres
  refine ⟨⟨p⟩, ?_, hres, ?_, ?_⟩
  · rw [hname]; apply String.ext; simp
  · rw [hres]
    intro heq
    have := congrArg String.data (Option.some.inj heq)
    simp at this
  · rw [hres]
    intro heq
    have := congrArg String.data (Option.some.inj heq)
    simp at this

/-- C10 as stated fails, twice.  The path `src/index.{js,ts}` is matched by the glob
`src/index.{js,ts}` of the last entry, because the glob matcher accepts a path that is the
glob itself, and is not matched by the include glob.  The path `src/a⏎b.ts`, whose file
name contains a line feed (written `⏎`), is matched by the include glob and by none of
the three globs of the negated entries, and the list does not select it, because the
regular expression of a negated glob ends in `.*$`. -/
theorem coverage_is_not_include_minus_exclusions :
    (picomatch "src/index.\x7bjs,ts\x7d" "src/index.\x7bjs,ts\x7d" = true
      ∧ picomatch "src/**/*.\x7bjs,jsx,ts,tsx\x7d" "src/index.\x7bjs,ts\x7d" = false)
    ∧ (picomatch "src/**/*.\x7bjs,jsx,ts,tsx\x7d" (replacePathSepForGlob "src/a\nb.ts") = true
      ∧ picomatch "src/**/*.d.ts" (replacePathSepForGlob "src/a\nb.ts") = false
      ∧ picomatch "src/**/*.stories.\x7bjs,jsx,ts,tsx\x7d" (replacePathSepForGlob "src/a\nb.ts")
          = false
      ∧ picomatch "src/index.\x7bjs,ts\x7d" (replacePathSepForGlob "src/a\nb.ts") = false
      ∧ selectedForCoverage exports "src/a\nb.ts" = false) := by
  simp only [selectedForCoverage_eq,
    picomatch_eval _ _ _ makeRe_include parse_include,
    picomatch_eval _ _ _ makeRe_dts parse_dts,
    picomatch_eval _ _ _ makeRe_stories parse_stories,
    picomatch_eval _ _ _ makeRe_index parse_index,
    picomatch_eval _ _ _ makeRe_not_dts parse_not_dts,
    picomatch_eval _ _ _ makeRe_not_stories parse_not_stories,
    picomatch_eval _ _ _ makeRe_not_index parse_not_index]
  decide

/-- C10, amended: in `collectCoverageFrom` the include glob comes first and every later
entry is a negated glob.  Every path `q` matched by the glob `src/**/*.d.ts` of a negated
entry is matched by the include glob, and so is every path matched by the globs
`src/**/*.stories.{js,jsx,ts,tsx}` and `src/index.{js,ts}` other than the glob itself; each of
the three matches some path.  The list selects a path exactly when the path has no line
terminator, the include glob matches it and none of the three globs does; it selects
`src/app.ts`, selects neither `lib/app.ts` nor `src/api/types.d.ts`, and selects the
test file `src/app.test.tsx`, which it is not this list that keeps out of the coverage. -/
theorem coverage_list_is_include_minus_exclusions (path q : String) :
    exports.collectCoverageFrom.map isNegated = [false, true, true, true]
    ∧ exports.collectCoverageFrom.head? = some "src/**/*.\x7bjs,jsx,ts,tsx\x7d"
    ∧ exports.collectCoverageFrom.tail.map stripNegation
        = ["src/**/*.d.ts", "src/**/*.stories.\x7bjs,jsx,ts,tsx\x7d", "src/index.\x7bjs,ts\x7d"]
    ∧ (picomatch "src/**/*.d.ts" q = true →
        picomatch "src/**/*.\x7bjs,jsx,ts,tsx\x7d" q = true)
    ∧ (picomatch "src/**/*.stories.\x7bjs,jsx,ts,tsx\x7d" q = true →
        q ≠ "src/**/*.stories.\x7bjs,jsx,ts,tsx\x7d" →
        picomatch "src/**/*.\x7bjs,jsx,ts,tsx\x7d" q = true)
    ∧ (picomatch "src/index.\x7bjs,ts\x7d" q = true → q ≠ "src/index.\x7bjs,ts\x7d" →
        picomatch "src/**/*.\x7bjs,jsx,ts,tsx\x7d" q = true)
    ∧ picomatch "src/**/*.d.ts" "src/api/types.d.ts" = true
    ∧ picomatch "src/**/*.stories.\x7bjs,jsx,ts,tsx\x7d" "src/ui/Button.stories.tsx" = true
    ∧ picomatch "src/index.\x7bjs,ts\x7d" "src/index.ts" = true
    ∧ (selectedForCoverage exports path = true ↔
        (picomatch "src/**/*.\x7bjs,jsx,ts,tsx\x7d" (replacePathSepForGlob path) = true
          ∧ hasLineTerminator path = false
          ∧ picomatch "src/**/*.d.ts" (replacePathSepForGlob path) = false
          ∧ picomatch "src/**/*.stories.\x7bjs,jsx,ts,tsx\x7d" (replacePathSepForGlob path)
              = false
          ∧ picomatch "src/index.\x7bjs,ts\x7d" (replacePathSepForGlob path) = false))
    ∧ selectedForCoverage exports "src/app.ts" = true
    ∧ selectedForCoverage exports "lib/app.ts" = false
    ∧ selectedForCoverage exports "src/api/types.d.ts" = false
    ∧ selectedForCoverage exports "src/ui/Button.stories.tsx" = false
    ∧ selectedForCoverage exports "src/index.ts" = false
    ∧ (selectedForCoverage exports "src/app.test.tsx" = true
        ∧ isTestFile exports "src/app.test.tsx" = true) := by
  have hev : picomatch "src/**/*.d.ts" "src/api/types.d.ts" = true
      ∧ picomatch "src/**/*.stories.\x7bjs,jsx,ts,tsx\x7d" "src/ui/Button.stories.tsx" = true
      ∧ picomatch "src/index.\x7bjs,ts\x7d" "src/index.ts" = true
      ∧ selectedForCoverage exports "src/app.ts" = true
      ∧ selectedForCoverage exports "lib/app.ts" = false
      ∧ selectedForCoverage exports "src/api/types.d.ts" = false
      ∧ selectedForCoverage exports "src/ui/Button.stories.tsx" = false
      ∧ selectedForCoverage exports "src/index.ts" = false
      ∧ (selectedForCoverage exports "src/app.test.tsx" = true
          ∧ isTestFile exports "src/app.test.tsx" = true) := by
    simp only [selectedForCoverage_eq, isTestFile_eq,
      picomatch_eval _ _ _ makeRe_testMatch0 parse_testMatch0,
      picomatch_eval _ _ _ makeRe_testMatch1 parse_testMatch1,
      picomatch_eval _ _ _ makeRe_include parse_include,
      picomatch_eval _ _ _ makeRe_dts parse_dts,
      picomatch_eval _ _ _ makeRe_stories parse_stories,
      picomatch_eval _ _ _ makeRe_index parse_index,
      picomatch_eval _ _ _ makeRe_not_dts parse_not_dts,
      picomatch_eval _ _ _ makeRe_not_stories parse_not_stories,
      picomatch_eval _ _ _ makeRe_not_index parse_not_index]
    decide
  exact ⟨by decide, rfl, by decide, exclude_dts_subset q, exclude_stories_subset q,
    exclude_index_subset q, hev.1, hev.2.1, hev.2.2.1, selectedForCoverage_iff path,
    hev.2.2.2⟩
